import Mathlib

/-!
Verification of the ES6-to-AMD module converter (src/module.js) against its
natural-language specification. The development shallowly embeds the ESTree
node shapes the converter manipulates, translates each method of the Module
class into a Lean function, and proves or refutes the frozen claims.
-/

namespace EsToAmd

/-- Stable deduplication keeping first occurrences, with an accumulator of
already seen values; helper for uniq. -/
def uniqAux [DecidableEq α] (seen : List α) : List α → List α
  | [] => []
  | x :: xs => if x ∈ seen then uniqAux seen xs else x :: uniqAux (x :: seen) xs

/-- Embedding of underscore unique(array): stable deduplication keeping the
first occurrence of each value. -/
def uniq [DecidableEq α] (l : List α) : List α := uniqAux [] l

/-- Helper for uniqBy, carrying the list of already seen keys. -/
def uniqByAux [DecidableEq β] (key : α → β) (seen : List β) : List α → List α
  | [] => []
  | x :: xs =>
    if key x ∈ seen then uniqByAux key seen xs
    else x :: uniqByAux key (key x :: seen) xs

/-- Embedding of underscore unique(array, iteratee): stable deduplication by
a key function, keeping the first occurrence of each key. -/
def uniqBy [DecidableEq β] (key : α → β) (l : List α) : List α := uniqByAux key [] l

/-- Helper for identName: digits of the bijective base-26 notation over the
letters a to z, computed with fuel (the fuel n + 1 always suffices because
the recursive argument strictly decreases). -/
def identNameAux : Nat → Nat → List Char
  | 0, _ => []
  | fuel + 1, n =>
    if n < 26 then [Char.ofNat (97 + n)]
    else identNameAux fuel (n / 26 - 1) ++ [Char.ofNat (97 + n % 26)]

/-- Modelled from the spec: the Allocator enumeration of short identifier
names, in shortlex order: a, b, ..., z, aa, ab, ... (index n is written in
bijective base 26 over the letters a to z). The concrete Allocator
(identifier from pure-utilities/array) is an external collaborator that is
not part of src/; the spec fixes only its contract: it returns the smallest
valid identifier not contained in the excluded list. -/
def identName (n : Nat) : String := String.mk (identNameAux (n + 1) n)

/-- Linear search for the first enumerated name whose value (as a defined JS
string) does not occur in the used list; the fuel bounds the search and is
always sufficient because the used list is finite. -/
def allocateFrom (used : List (Option String)) : Nat → Nat → String
  | i, 0 => identName i
  | i, fuel + 1 =>
    if some (identName i) ∈ used then allocateFrom used (i + 1) fuel
    else identName i

/-- Modelled from the spec: identifier(array) from pure-utilities/array, the
Allocator. Given the list of values to avoid (JS array entries: none models
the JS undefined value, which compares unequal to every string), it returns
the shortlex-smallest enumerated name that does not occur in the list. -/
def identifier (used : List (Option String)) : String :=
  allocateFrom used 0 (used.length + 1)

/-- Shallow embedding of the ESTree node shapes handled by src/module.js
(spec section 3). Children are nodes, node lists or optional nodes; string
valued leaf fields carry the identifier names, literal values and module
specifier strings. A module specifier source is embedded directly as its
string (the spec data model: ImportDeclaration carries the source specifier
string), so the source-is-a-Literal test of the code is always true here. -/
inductive Node where
  | Program (body : List Node)
  | ImportDeclaration (specifiers : List Node) (source : String)
  | ImportDefaultSpecifier (lcl : Node)
  | ImportNamespaceSpecifier (lcl : Node)
  | ImportSpecifier (imported : Node) (lcl : Node)
  | ExportDefaultDeclaration (declaration : Node)
  | ExportNamedDeclaration (declaration : Option Node) (specifiers : List Node)
  | ExportSpecifier (lcl : Node) (exported : Node)
  | VariableDeclaration (declarations : List Node)
  | VariableDeclarator (id : Node) (init : Option Node)
  | FunctionDeclaration (id : Node) (params : List Node) (body : Node)
  | ClassDeclaration (id : Node)
  | Identifier (name : String)
  | Literal (value : String)
  | MemberExpression (object : Node) (property : Node)
  | ObjectExpression (properties : List Node)
  | Property (key : Node) (value : Node) (shorthand : Bool)
  | ArrayExpression (elements : List Node)
  | CallExpression (callee : Node) (arguments : List Node)
  | ExpressionStatement (expression : Node)
  | ReturnStatement (argument : Option Node)
  | FunctionExpression (params : List Node) (body : Node)
  | BlockStatement (body : List Node)
deriving Repr

/-- The type tag of a node, as the string stored in the type field of the
corresponding ESTree object. -/
def typeOf : Node → String
  | .Program _ => "Program"
  | .ImportDeclaration _ _ => "ImportDeclaration"
  | .ImportDefaultSpecifier _ => "ImportDefaultSpecifier"
  | .ImportNamespaceSpecifier _ => "ImportNamespaceSpecifier"
  | .ImportSpecifier _ _ => "ImportSpecifier"
  | .ExportDefaultDeclaration _ => "ExportDefaultDeclaration"
  | .ExportNamedDeclaration _ _ => "ExportNamedDeclaration"
  | .ExportSpecifier _ _ => "ExportSpecifier"
  | .VariableDeclaration _ => "VariableDeclaration"
  | .VariableDeclarator _ _ => "VariableDeclarator"
  | .FunctionDeclaration _ _ _ => "FunctionDeclaration"
  | .ClassDeclaration _ => "ClassDeclaration"
  | .Identifier _ => "Identifier"
  | .Literal _ => "Literal"
  | .MemberExpression _ _ => "MemberExpression"
  | .ObjectExpression _ => "ObjectExpression"
  | .Property _ _ _ => "Property"
  | .ArrayExpression _ => "ArrayExpression"
  | .CallExpression _ _ => "CallExpression"
  | .ExpressionStatement _ => "ExpressionStatement"
  | .ReturnStatement _ => "ReturnStatement"
  | .FunctionExpression _ _ => "FunctionExpression"
  | .BlockStatement _ => "BlockStatement"

mutual

/-- Embedding of the tree collaborator primitive find(type): collect, in
document order (pre-order, left to right), every node in the tree whose type
tag equals k. -/
def findType (k : String) : Node → List Node
  | t@(.Program body) =>
    (if typeOf t == k then [t] else []) ++ findTypeList k body
  | t@(.ImportDeclaration specifiers _) =>
    (if typeOf t == k then [t] else []) ++ findTypeList k specifiers
  | t@(.ImportDefaultSpecifier l) =>
    (if typeOf t == k then [t] else []) ++ findType k l
  | t@(.ImportNamespaceSpecifier l) =>
    (if typeOf t == k then [t] else []) ++ findType k l
  | t@(.ImportSpecifier imported l) =>
    (if typeOf t == k then [t] else []) ++ findType k imported ++ findType k l
  | t@(.ExportDefaultDeclaration d) =>
    (if typeOf t == k then [t] else []) ++ findType k d
  | t@(.ExportNamedDeclaration d specifiers) =>
    (if typeOf t == k then [t] else []) ++ findTypeOpt k d ++ findTypeList k specifiers
  | t@(.ExportSpecifier l e) =>
    (if typeOf t == k then [t] else []) ++ findType k l ++ findType k e
  | t@(.VariableDeclaration declarations) =>
    (if typeOf t == k then [t] else []) ++ findTypeList k declarations
  | t@(.VariableDeclarator i v) =>
    (if typeOf t == k then [t] else []) ++ findType k i ++ findTypeOpt k v
  | t@(.FunctionDeclaration i params body) =>
    (if typeOf t == k then [t] else []) ++ findType k i ++ findTypeList k params ++ findType k body
  | t@(.ClassDeclaration i) =>
    (if typeOf t == k then [t] else []) ++ findType k i
  | t@(.Identifier _) => if typeOf t == k then [t] else []
  | t@(.Literal _) => if typeOf t == k then [t] else []
  | t@(.MemberExpression o p) =>
    (if typeOf t == k then [t] else []) ++ findType k o ++ findType k p
  | t@(.ObjectExpression properties) =>
    (if typeOf t == k then [t] else []) ++ findTypeList k properties
  | t@(.Property key value _) =>
    (if typeOf t == k then [t] else []) ++ findType k key ++ findType k value
  | t@(.ArrayExpression elements) =>
    (if typeOf t == k then [t] else []) ++ findTypeList k elements
  | t@(.CallExpression callee arguments) =>
    (if typeOf t == k then [t] else []) ++ findType k callee ++ findTypeList k arguments
  | t@(.ExpressionStatement e) =>
    (if typeOf t == k then [t] else []) ++ findType k e
  | t@(.ReturnStatement a) =>
    (if typeOf t == k then [t] else []) ++ findTypeOpt k a
  | t@(.FunctionExpression params body) =>
    (if typeOf t == k then [t] else []) ++ findTypeList k params ++ findType k body
  | t@(.BlockStatement body) =>
    (if typeOf t == k then [t] else []) ++ findTypeList k body

/-- findType over an ordered child list. -/
def findTypeList (k : String) : List Node → List Node
  | [] => []
  | x :: xs => findType k x ++ findTypeList k xs

/-- findType over an optional child. -/
def findTypeOpt (k : String) : Option Node → List Node
  | none => []
  | some x => findType k x

end

/-- Embedding of the tree collaborator primitive has(type): some node of the
given type exists in the tree. -/
def hasType (k : String) (t : Node) : Bool :=
  !(findType k t).isEmpty

mutual

/-- Embedding of the tree collaborator primitive remove on a type predicate:
delete every node whose type tag equals k. Matching nodes are dropped from
child lists and from optional child slots before recursing (the removed
subtree is not visited further); required single-child slots only occur at
positions where the removed kinds cannot appear in a well-formed tree, so
there the recursion just descends. -/
def removeType (k : String) : Node → Node
  | .Program body => .Program (removeTypeList k body)
  | .ImportDeclaration specifiers src => .ImportDeclaration (removeTypeList k specifiers) src
  | .ImportDefaultSpecifier l => .ImportDefaultSpecifier (removeType k l)
  | .ImportNamespaceSpecifier l => .ImportNamespaceSpecifier (removeType k l)
  | .ImportSpecifier imported l => .ImportSpecifier (removeType k imported) (removeType k l)
  | .ExportDefaultDeclaration d => .ExportDefaultDeclaration (removeType k d)
  | .ExportNamedDeclaration d specifiers =>
    .ExportNamedDeclaration (removeTypeOpt k d) (removeTypeList k specifiers)
  | .ExportSpecifier l e => .ExportSpecifier (removeType k l) (removeType k e)
  | .VariableDeclaration declarations => .VariableDeclaration (removeTypeList k declarations)
  | .VariableDeclarator i v => .VariableDeclarator (removeType k i) (removeTypeOpt k v)
  | .FunctionDeclaration i params body =>
    .FunctionDeclaration (removeType k i) (removeTypeList k params) (removeType k body)
  | .ClassDeclaration i => .ClassDeclaration (removeType k i)
  | .Identifier nm => .Identifier nm
  | .Literal v => .Literal v
  | .MemberExpression o p => .MemberExpression (removeType k o) (removeType k p)
  | .ObjectExpression properties => .ObjectExpression (removeTypeList k properties)
  | .Property key value sh => .Property (removeType k key) (removeType k value) sh
  | .ArrayExpression elements => .ArrayExpression (removeTypeList k elements)
  | .CallExpression callee arguments =>
    .CallExpression (removeType k callee) (removeTypeList k arguments)
  | .ExpressionStatement e => .ExpressionStatement (removeType k e)
  | .ReturnStatement a => .ReturnStatement (removeTypeOpt k a)
  | .FunctionExpression params body =>
    .FunctionExpression (removeTypeList k params) (removeType k body)
  | .BlockStatement body => .BlockStatement (removeTypeList k body)

/-- removeType over an ordered child list: matching children are dropped,
the others are processed recursively. -/
def removeTypeList (k : String) : List Node → List Node
  | [] => []
  | x :: xs =>
    if typeOf x == k then removeTypeList k xs
    else removeType k x :: removeTypeList k xs

/-- removeType over an optional child slot. -/
def removeTypeOpt (k : String) : Option Node → Option Node
  | none => none
  | some x => if typeOf x == k then none else some (removeType k x)

end

/-- JS property access node.name: only Identifier nodes carry a name field;
on every other node kind the access yields the JS undefined value, embedded
as none. In particular an ImportDeclaration node has no name field. -/
def nameField : Node → Option String
  | .Identifier nm => some nm
  | _ => none

/-- JS property access node.local on specifier nodes; undefined (none) on
any node kind without a local field. -/
def localField : Node → Option Node
  | .ImportDefaultSpecifier l => some l
  | .ImportNamespaceSpecifier l => some l
  | .ImportSpecifier _ l => some l
  | .ExportSpecifier l _ => some l
  | _ => none

/-- JS property access node.id on declaration and declarator nodes. -/
def idField : Node → Option Node
  | .VariableDeclarator i _ => some i
  | .FunctionDeclaration i _ _ => some i
  | .ClassDeclaration i => some i
  | _ => none

/-- The dependency pair records produced by the resolver (spec section 3):
element is the module specifier, param the factory parameter name when one
exists, name the bare local name that must be rewritten to a member access
when the pair came from an unrenamed named import. The optional fields model
JS object properties that may be absent (undefined). -/
structure DependencyPair where
  element : String
  param : Option String := none
  name : Option String := none
deriving DecidableEq, Repr

/-- Embedding of Module.isSideEffectImportDeclaration: the source is a
Literal (always true in this embedding, where the source is carried as its
specifier string) and the specifier list is empty. -/
def isSideEffectImportDeclaration : Node → Bool
  | .ImportDeclaration specifiers _ => specifiers.isEmpty
  | _ => false

/-- Embedding of Module.getLocalSpecifier: a pair binding the module
specifier directly to the local name of the import specifier as parameter
(specifier.local.name). -/
def getLocalSpecifier (src : String) (specifier : Node) : DependencyPair :=
  { element := src, param := (localField specifier).bind nameField }

/-- Lookup in the memo object dependencyToIdentifierMap, modelled as an
association list in key insertion order (string keys of a JS object
enumerate in insertion order). -/
def assocLookup : List (String × String) → String → Option String
  | [], _ => none
  | (k, v) :: rest, key => if k == key then some v else assocLookup rest key

/-- Embedding of the specifier callback inside Module.getDependencyPairs:
given the deduplicated name-field list of all import declarations (ids), the
module specifier string of the enclosing declaration and the current memo,
produce the pairs emitted for one specifier node together with the updated
memo. A node of any other kind makes the JS callback return undefined; such
an entry is dropped here (the surrounding code would fault on it later). -/
def resolveSpecifier (ids : List (Option String)) (src : String)
    (memo : List (String × String)) : Node → List DependencyPair × List (String × String)
  | s@(.ImportDefaultSpecifier _) => ([getLocalSpecifier src s], memo)
  | s@(.ImportNamespaceSpecifier _) => ([getLocalSpecifier src s], memo)
  | s@(.ImportSpecifier imported l) =>
    if nameField imported != nameField l then ([getLocalSpecifier src s], memo)
    else
      match assocLookup memo src with
      | some p => ([{ element := src, param := some p, name := nameField l }], memo)
      | none =>
        let identifiers := uniq ids ++ (memo.map Prod.snd).map some
        let p := identifier identifiers
        ([{ element := src, param := some p, name := nameField l }], memo ++ [(src, p)])
  | _ => ([], memo)

/-- Embedding of the declaration callback inside Module.getDependencyPairs:
a side-effect import emits a bare element pair, otherwise the specifiers are
mapped through resolveSpecifier, threading the memo. The accumulated pair
list corresponds to the flatten over the mapped declarations. In the
identifiers list built for an allocation, uniq ids is unique(flatten(ids)):
the entries of ids (name fields of whole ImportDeclaration nodes) are never
arrays, so the inner flatten is the identity on them. -/
def resolveImport (ids : List (Option String))
    (acc : List DependencyPair × List (String × String)) :
    Node → List DependencyPair × List (String × String)
  | d@(.ImportDeclaration specifiers src) =>
    if isSideEffectImportDeclaration d then
      (acc.1 ++ [{ element := src }], acc.2)
    else
      specifiers.foldl
        (fun a s =>
          let r := resolveSpecifier ids src a.2 s
          (a.1 ++ r.1, r.2))
        acc
  | _ => acc

/-- Embedding of Module.getDependencyPairs: walk the import declarations in
document order; ids is unique(imports.map(item => item.name)) (the name
field of an ImportDeclaration node is undefined, hence the none entries);
the result is the flat ordered pair list. -/
def getDependencyPairs (t : Node) : List DependencyPair :=
  let imports := findType "ImportDeclaration" t
  let ids := uniq (imports.map nameField)
  (imports.foldl (resolveImport ids) ([], [])).1

/-- Embedding of Module.convertIdentifierToMemberExpression: the member
expression param.name built from a pair. The pairs reaching this function
always carry both fields; the defaults mirror a JS undefined leaking into an
Identifier name on malformed input. -/
def convertIdentifierToMemberExpression (pair : DependencyPair) : Node :=
  .MemberExpression (.Identifier (pair.param.getD "undefined"))
    (.Identifier (pair.name.getD "undefined"))

/-- JS truthiness of pair.name as used in pairs.filter(pair => pair.name):
present and not the empty string. -/
def truthyName (p : DependencyPair) : Bool :=
  match p.name with
  | some s => s != ""
  | none => false

/-- JS truthiness of pair.param as used in pairs.filter(pair => pair.param). -/
def truthyParam (p : DependencyPair) : Bool :=
  match p.param with
  | some s => s != ""
  | none => false

/-- The pair selected for an identifier name: implements the source pattern
names.indexOf(current.name) followed by nodes[index], where names is the
name list of nodes; picking the first pair whose name equals the identifier
name is the same operation. -/
def lookupPair (nodes : List DependencyPair) (nm : String) : Option DependencyPair :=
  nodes.find? (fun p => p.name == some nm)

/-- The leave visitor of Module.normalizePairs: an Identifier whose name
matches one of the grouped pairs is replaced by the member expression of the
matching pair; every other node is returned unchanged (the source returns
current). -/
def normalizeVisit (nodes : List DependencyPair) (current : Node) : Node :=
  match current with
  | .Identifier nm =>
    match lookupPair nodes nm with
    | some pair => convertIdentifierToMemberExpression pair
    | none => current
  | _ => current

mutual

/-- Embedding of the replace traversal of Module.normalizePairs with a leave
visitor (post-order, bottom-up): children are replaced first, then the
visitor is applied to the rebuilt node; a replacement returned by the
visitor is not traversed again. Since the visitor only rewrites Identifier
leaves and returns every other node unchanged, applying it at the rebuilt
composite nodes is the identity. -/
def normalizeNode (nodes : List DependencyPair) : Node → Node
  | .Identifier nm => normalizeVisit nodes (.Identifier nm)
  | .Program body => .Program (normalizeList nodes body)
  | .ImportDeclaration specifiers src =>
    .ImportDeclaration (normalizeList nodes specifiers) src
  | .ImportDefaultSpecifier l => .ImportDefaultSpecifier (normalizeNode nodes l)
  | .ImportNamespaceSpecifier l => .ImportNamespaceSpecifier (normalizeNode nodes l)
  | .ImportSpecifier imported l =>
    .ImportSpecifier (normalizeNode nodes imported) (normalizeNode nodes l)
  | .ExportDefaultDeclaration d => .ExportDefaultDeclaration (normalizeNode nodes d)
  | .ExportNamedDeclaration d specifiers =>
    .ExportNamedDeclaration (normalizeOpt nodes d) (normalizeList nodes specifiers)
  | .ExportSpecifier l e => .ExportSpecifier (normalizeNode nodes l) (normalizeNode nodes e)
  | .VariableDeclaration declarations => .VariableDeclaration (normalizeList nodes declarations)
  | .VariableDeclarator i v => .VariableDeclarator (normalizeNode nodes i) (normalizeOpt nodes v)
  | .FunctionDeclaration i params body =>
    .FunctionDeclaration (normalizeNode nodes i) (normalizeList nodes params) (normalizeNode nodes body)
  | .ClassDeclaration i => .ClassDeclaration (normalizeNode nodes i)
  | .Literal v => .Literal v
  | .MemberExpression o p => .MemberExpression (normalizeNode nodes o) (normalizeNode nodes p)
  | .ObjectExpression properties => .ObjectExpression (normalizeList nodes properties)
  | .Property key value sh => .Property (normalizeNode nodes key) (normalizeNode nodes value) sh
  | .ArrayExpression elements => .ArrayExpression (normalizeList nodes elements)
  | .CallExpression callee arguments =>
    .CallExpression (normalizeNode nodes callee) (normalizeList nodes arguments)
  | .ExpressionStatement e => .ExpressionStatement (normalizeNode nodes e)
  | .ReturnStatement a => .ReturnStatement (normalizeOpt nodes a)
  | .FunctionExpression params body =>
    .FunctionExpression (normalizeList nodes params) (normalizeNode nodes body)
  | .BlockStatement body => .BlockStatement (normalizeList nodes body)

/-- normalizeNode over an ordered child list. -/
def normalizeList (nodes : List DependencyPair) : List Node → List Node
  | [] => []
  | x :: xs => normalizeNode nodes x :: normalizeList nodes xs

/-- normalizeNode over an optional child. -/
def normalizeOpt (nodes : List DependencyPair) : Option Node → Option Node
  | none => none
  | some x => some (normalizeNode nodes x)

end

/-- Embedding of Module.normalizePairs: filter the pairs to those with a
truthy name, then run the bottom-up replace traversal over the whole tree. -/
def normalizePairs (pairs : List DependencyPair) (t : Node) : Node :=
  normalizeNode (pairs.filter truthyName) t

mutual

/-- Embedding of the replace traversal of
Module.convertExportDefaultDeclarationToReturn with an enter visitor
(pre-order): an ExportDefaultDeclaration is turned in place into a
ReturnStatement whose argument is the wrapped declaration, and the traversal
then continues into the children of the replacement (here: the argument). -/
def exportDefaultToReturn : Node → Node
  | .ExportDefaultDeclaration d => .ReturnStatement (some (exportDefaultToReturn d))
  | .Program body => .Program (exportDefaultToReturnList body)
  | .ImportDeclaration specifiers src =>
    .ImportDeclaration (exportDefaultToReturnList specifiers) src
  | .ImportDefaultSpecifier l => .ImportDefaultSpecifier (exportDefaultToReturn l)
  | .ImportNamespaceSpecifier l => .ImportNamespaceSpecifier (exportDefaultToReturn l)
  | .ImportSpecifier imported l =>
    .ImportSpecifier (exportDefaultToReturn imported) (exportDefaultToReturn l)
  | .ExportNamedDeclaration d specifiers =>
    .ExportNamedDeclaration (exportDefaultToReturnOpt d) (exportDefaultToReturnList specifiers)
  | .ExportSpecifier l e => .ExportSpecifier (exportDefaultToReturn l) (exportDefaultToReturn e)
  | .VariableDeclaration declarations => .VariableDeclaration (exportDefaultToReturnList declarations)
  | .VariableDeclarator i v => .VariableDeclarator (exportDefaultToReturn i) (exportDefaultToReturnOpt v)
  | .FunctionDeclaration i params body =>
    .FunctionDeclaration (exportDefaultToReturn i) (exportDefaultToReturnList params) (exportDefaultToReturn body)
  | .ClassDeclaration i => .ClassDeclaration (exportDefaultToReturn i)
  | .Identifier nm => .Identifier nm
  | .Literal v => .Literal v
  | .MemberExpression o p => .MemberExpression (exportDefaultToReturn o) (exportDefaultToReturn p)
  | .ObjectExpression properties => .ObjectExpression (exportDefaultToReturnList properties)
  | .Property key value sh => .Property (exportDefaultToReturn key) (exportDefaultToReturn value) sh
  | .ArrayExpression elements => .ArrayExpression (exportDefaultToReturnList elements)
  | .CallExpression callee arguments =>
    .CallExpression (exportDefaultToReturn callee) (exportDefaultToReturnList arguments)
  | .ExpressionStatement e => .ExpressionStatement (exportDefaultToReturn e)
  | .ReturnStatement a => .ReturnStatement (exportDefaultToReturnOpt a)
  | .FunctionExpression params body =>
    .FunctionExpression (exportDefaultToReturnList params) (exportDefaultToReturn body)
  | .BlockStatement body => .BlockStatement (exportDefaultToReturnList body)

/-- exportDefaultToReturn over an ordered child list. -/
def exportDefaultToReturnList : List Node → List Node
  | [] => []
  | x :: xs => exportDefaultToReturn x :: exportDefaultToReturnList xs

/-- exportDefaultToReturn over an optional child. -/
def exportDefaultToReturnOpt : Option Node → Option Node
  | none => none
  | some x => some (exportDefaultToReturn x)

end

mutual

/-- Embedding of the replace traversal of
Module.convertExportNamedDeclarationToDeclaration with an enter visitor: an
ExportNamedDeclaration that wraps a declaration is replaced by that
declaration; the enter visitor is not applied again to the replacement
itself, but the traversal continues into the children of the replacement
(exportNamedChildren). An ExportNamedDeclaration without declaration is left
in place (the visitor returns undefined for it). -/
def exportNamedToDeclaration : Node → Node
  | .ExportNamedDeclaration (some d) _ => exportNamedChildren d
  | .ExportNamedDeclaration none specifiers =>
    .ExportNamedDeclaration none (exportNamedToDeclarationList specifiers)
  | .Program body => .Program (exportNamedToDeclarationList body)
  | .ImportDeclaration specifiers src =>
    .ImportDeclaration (exportNamedToDeclarationList specifiers) src
  | .ImportDefaultSpecifier l => .ImportDefaultSpecifier (exportNamedToDeclaration l)
  | .ImportNamespaceSpecifier l => .ImportNamespaceSpecifier (exportNamedToDeclaration l)
  | .ImportSpecifier imported l =>
    .ImportSpecifier (exportNamedToDeclaration imported) (exportNamedToDeclaration l)
  | .ExportDefaultDeclaration d => .ExportDefaultDeclaration (exportNamedToDeclaration d)
  | .ExportSpecifier l e => .ExportSpecifier (exportNamedToDeclaration l) (exportNamedToDeclaration e)
  | .VariableDeclaration declarations => .VariableDeclaration (exportNamedToDeclarationList declarations)
  | .VariableDeclarator i v =>
    .VariableDeclarator (exportNamedToDeclaration i) (exportNamedToDeclarationOpt v)
  | .FunctionDeclaration i params body =>
    .FunctionDeclaration (exportNamedToDeclaration i) (exportNamedToDeclarationList params) (exportNamedToDeclaration body)
  | .ClassDeclaration i => .ClassDeclaration (exportNamedToDeclaration i)
  | .Identifier nm => .Identifier nm
  | .Literal v => .Literal v
  | .MemberExpression o p =>
    .MemberExpression (exportNamedToDeclaration o) (exportNamedToDeclaration p)
  | .ObjectExpression properties => .ObjectExpression (exportNamedToDeclarationList properties)
  | .Property key value sh =>
    .Property (exportNamedToDeclaration key) (exportNamedToDeclaration value) sh
  | .ArrayExpression elements => .ArrayExpression (exportNamedToDeclarationList elements)
  | .CallExpression callee arguments =>
    .CallExpression (exportNamedToDeclaration callee) (exportNamedToDeclarationList arguments)
  | .ExpressionStatement e => .ExpressionStatement (exportNamedToDeclaration e)
  | .ReturnStatement a => .ReturnStatement (exportNamedToDeclarationOpt a)
  | .FunctionExpression params body =>
    .FunctionExpression (exportNamedToDeclarationList params) (exportNamedToDeclaration body)
  | .BlockStatement body => .BlockStatement (exportNamedToDeclarationList body)

/-- Children-only walk of the replacement node: the replacement returned by
the enter visitor is not itself visited again, but each of its children is
traversed with the full visitor. -/
def exportNamedChildren : Node → Node
  | .Program body => .Program (exportNamedToDeclarationList body)
  | .ImportDeclaration specifiers src =>
    .ImportDeclaration (exportNamedToDeclarationList specifiers) src
  | .ImportDefaultSpecifier l => .ImportDefaultSpecifier (exportNamedToDeclaration l)
  | .ImportNamespaceSpecifier l => .ImportNamespaceSpecifier (exportNamedToDeclaration l)
  | .ImportSpecifier imported l =>
    .ImportSpecifier (exportNamedToDeclaration imported) (exportNamedToDeclaration l)
  | .ExportDefaultDeclaration d => .ExportDefaultDeclaration (exportNamedToDeclaration d)
  | .ExportNamedDeclaration d specifiers =>
    .ExportNamedDeclaration (exportNamedToDeclarationOpt d) (exportNamedToDeclarationList specifiers)
  | .ExportSpecifier l e => .ExportSpecifier (exportNamedToDeclaration l) (exportNamedToDeclaration e)
  | .VariableDeclaration declarations => .VariableDeclaration (exportNamedToDeclarationList declarations)
  | .VariableDeclarator i v =>
    .VariableDeclarator (exportNamedToDeclaration i) (exportNamedToDeclarationOpt v)
  | .FunctionDeclaration i params body =>
    .FunctionDeclaration (exportNamedToDeclaration i) (exportNamedToDeclarationList params) (exportNamedToDeclaration body)
  | .ClassDeclaration i => .ClassDeclaration (exportNamedToDeclaration i)
  | .Identifier nm => .Identifier nm
  | .Literal v => .Literal v
  | .MemberExpression o p =>
    .MemberExpression (exportNamedToDeclaration o) (exportNamedToDeclaration p)
  | .ObjectExpression properties => .ObjectExpression (exportNamedToDeclarationList properties)
  | .Property key value sh =>
    .Property (exportNamedToDeclaration key) (exportNamedToDeclaration value) sh
  | .ArrayExpression elements => .ArrayExpression (exportNamedToDeclarationList elements)
  | .CallExpression callee arguments =>
    .CallExpression (exportNamedToDeclaration callee) (exportNamedToDeclarationList arguments)
  | .ExpressionStatement e => .ExpressionStatement (exportNamedToDeclaration e)
  | .ReturnStatement a => .ReturnStatement (exportNamedToDeclarationOpt a)
  | .FunctionExpression params body =>
    .FunctionExpression (exportNamedToDeclarationList params) (exportNamedToDeclaration body)
  | .BlockStatement body => .BlockStatement (exportNamedToDeclarationList body)

/-- exportNamedToDeclaration over an ordered child list. -/
def exportNamedToDeclarationList : List Node → List Node
  | [] => []
  | x :: xs => exportNamedToDeclaration x :: exportNamedToDeclarationList xs

/-- exportNamedToDeclaration over an optional child. -/
def exportNamedToDeclarationOpt : Option Node → Option Node
  | none => none
  | some x => some (exportNamedToDeclaration x)

end

/-- Embedding of the tree collaborator primitive prepend: insert a statement
at the start of the top-level body. -/
def prependStmt (s : Node) : Node → Node
  | .Program body => .Program (s :: body)
  | t => t

/-- Embedding of the tree collaborator primitive append: insert a statement
at the end of the top-level body. -/
def appendStmt (s : Node) : Node → Node
  | .Program body => .Program (body ++ [s])
  | t => t

/-- Embedding of the tree collaborator primitive wrap: replace the whole
top-level body by the sequence the callback returns for it. -/
def wrapBody (f : List Node → List Node) : Node → Node
  | .Program body => .Program (f body)
  | t => t

/-- The use strict directive statement prepended by
Module.prependUseStrictLiteral. -/
def useStrictStatement : Node := .ExpressionStatement (.Literal "use strict")

/-- Embedding of Module.prependUseStrictLiteral. -/
def prependUseStrictLiteral (t : Node) : Node := prependStmt useStrictStatement t

/-- Embedding of Module.getDefine: an expression statement calling the
identifier define with the given arguments. -/
def getDefine (nodes : List Node) : Node :=
  .ExpressionStatement (.CallExpression (.Identifier "define") nodes)

/-- Embedding of Module.getFunctionExpression: a function expression with
the given parameters whose body is a block of the given statements. -/
def getFunctionExpression (params : List Node) (body : List Node) : Node :=
  .FunctionExpression params (.BlockStatement body)

/-- Embedding of Module.getDefineWithFunctionExpression. -/
def getDefineWithFunctionExpression (body : List Node) : Node :=
  getDefine [getFunctionExpression [] body]

/-- Embedding of Module.getProperty: key and value are the same node. -/
def getProperty (node : Node) (shorthand : Bool) : Node :=
  .Property node node shorthand

/-- Embedding of Module.mapDeclarationToProperty on one found
ExportNamedDeclaration node. The source accesses node.local and node.id;
on a malformed node without the field the JS undefined value would leak into
the property, modelled by the Identifier-undefined default. A node that is
not an ExportNamedDeclaration would make the source fault; it contributes
nothing here. -/
def mapDeclarationToProperty (declaration : Node) : List Node :=
  match declaration with
  | .ExportNamedDeclaration none specifiers =>
    specifiers.map (fun node => getProperty ((localField node).getD (.Identifier "undefined")) true)
  | .ExportNamedDeclaration (some (.VariableDeclaration declarations)) _ =>
    declarations.map (fun node => getProperty ((idField node).getD (.Identifier "undefined")) false)
  | .ExportNamedDeclaration (some d) _ =>
    [getProperty ((idField d).getD (.Identifier "undefined")) false]
  | _ => []

/-- Embedding of Module.mapDeclarationsToProperties: flatten of the mapped
declarations. -/
def mapDeclarationsToProperties (declarations : List Node) : List Node :=
  (declarations.map mapDeclarationToProperty).flatten

/-- Embedding of Module.getObjectExpression. -/
def getObjectExpression (declarations : List Node) : Node :=
  .ObjectExpression (mapDeclarationsToProperties declarations)

/-- Embedding of Module.convertExportNamedDeclarationToDeclaration. -/
def convertExportNamedDeclarationToDeclaration (t : Node) : Node :=
  exportNamedToDeclaration t

/-- Embedding of Module.convertExportNamedDeclarations: capture the
ExportNamedDeclaration nodes, unwrap those with declarations, remove the
remaining wrappers, then append the return of the collected object. -/
def convertExportNamedDeclarations (t : Node) : Node :=
  let declarations := findType "ExportNamedDeclaration" t
  let t1 := convertExportNamedDeclarationToDeclaration t
  let t2 := removeType "ExportNamedDeclaration" t1
  appendStmt (.ReturnStatement (some (getObjectExpression declarations))) t2

/-- Embedding of Module.convertExportDefaultDeclarationToReturn. -/
def convertExportDefaultDeclarationToReturn (t : Node) : Node :=
  exportDefaultToReturn t

/-- Embedding of Module.convertExportDefaultDeclarationToDefine. -/
def convertExportDefaultDeclarationToDefine (t : Node) : Node :=
  let t1 := prependUseStrictLiteral t
  let t2 := convertExportDefaultDeclarationToReturn t1
  wrapBody (fun body => [getDefineWithFunctionExpression body]) t2

/-- Embedding of Module.convertExportNamedDeclarationToDefine. -/
def convertExportNamedDeclarationToDefine (t : Node) : Node :=
  let t1 := prependUseStrictLiteral t
  let t2 := convertExportNamedDeclarations t1
  wrapBody (fun body => [getDefineWithFunctionExpression body]) t2

/-- Embedding of Module.getArrayExpression. -/
def getArrayExpression (elements : List Node) : Node :=
  .ArrayExpression elements

/-- The deduplication key of Module.wrapWithDefineWithArrayExpression:
JS string concatenation item.element + item.param, where an absent param
coerces to the string undefined. -/
def pairKey (item : DependencyPair) : String :=
  item.element ++ (item.param.getD "undefined")

/-- Embedding of Module.wrapWithDefineWithArrayExpression: deduplicate the
pairs by the concatenated key, build the literal array of elements and the
identifier list of truthy params, and wrap the body into the two-argument
define call. -/
def wrapWithDefineWithArrayExpression (pairs : List DependencyPair) (t : Node) : Node :=
  let dpairs := uniqBy pairKey pairs
  let elements := (dpairs.map (fun pair => pair.element)).map (fun element => Node.Literal element)
  let params :=
    ((dpairs.filter truthyParam).map (fun pair => pair.param.getD "undefined")).map
      (fun param => Node.Identifier param)
  wrapBody (fun body => [getDefine [getArrayExpression elements, getFunctionExpression params body]]) t

/-- Embedding of Module.convertCodeWithImportDeclarations. -/
def convertCodeWithImportDeclarations (t : Node) : Node :=
  let pairs := getDependencyPairs t
  let t1 := removeType "ImportDeclaration" t
  let t2 := normalizePairs pairs t1
  let t3 :=
    if hasType "ExportDefaultDeclaration" t2 then convertExportDefaultDeclarationToReturn t2
    else if hasType "ExportNamedDeclaration" t2 then convertExportNamedDeclarations t2
    else t2
  let t4 := prependUseStrictLiteral t3
  wrapWithDefineWithArrayExpression pairs t4

/-- Embedding of Module.convert: the dispatcher. -/
def convert (t : Node) : Node :=
  if hasType "ImportDeclaration" t then convertCodeWithImportDeclarations t
  else if hasType "ExportDefaultDeclaration" t then convertExportDefaultDeclarationToDefine t
  else if hasType "ExportNamedDeclaration" t then convertExportNamedDeclarationToDefine t
  else t

/-- The only node of type k in the subtree, if any, is the root itself: the
statement is clean below its top node for that type. In the input format of
the spec, import and export declarations are interleaved with ordinary
statements at the top level only, so every top-level statement is clean for
the three dispatched declaration types. -/
def stmtClean (k : String) (s : Node) : Prop :=
  findType k s = if typeOf s == k then [s] else []

/-- Cleanliness for the three declaration types the dispatcher tests. -/
def stmtClean3 (s : Node) : Prop :=
  stmtClean "ImportDeclaration" s ∧ stmtClean "ExportDefaultDeclaration" s ∧
    stmtClean "ExportNamedDeclaration" s

/-- One of the three declaration type tags the dispatcher tests for. -/
def declKind (k : String) : Prop :=
  k = "ImportDeclaration" ∨ k = "ExportDefaultDeclaration" ∨ k = "ExportNamedDeclaration"

/-- What the named-export conversion leaves at the position of a top-level
statement: an export wrapping a declaration leaves the declaration, a
specifier-only export leaves nothing, any other statement stays. -/
def unwrapExportNamed : Node → Option Node
  | .ExportNamedDeclaration (some d) _ => some d
  | .ExportNamedDeclaration none _ => none
  | s => some s

/-- Concrete input: import a from m; import (b) from n. The default import
binds the local name a; the named import of b is unrenamed. -/
def importCollisionTree : Node :=
  .Program
    [.ImportDeclaration [.ImportDefaultSpecifier (.Identifier "a")] "m",
     .ImportDeclaration [.ImportSpecifier (.Identifier "b") (.Identifier "b")] "n"]

/-- Concrete input: export default 42 followed by an ordinary expression
statement, so the default export is not the last statement. -/
def defaultNotLastTree : Node :=
  .Program
    [.ExportDefaultDeclaration (.Literal "42"),
     .ExpressionStatement (.Identifier "x")]

/-- Concrete input declaring both a default export and a named export. -/
def bothExportsTree : Node :=
  .Program
    [.ExportDefaultDeclaration (.Literal "1"),
     .ExportNamedDeclaration none [.ExportSpecifier (.Identifier "a") (.Identifier "a")]]

/-- Concrete input with an import and both export forms. -/
def importAndExportsTree : Node :=
  .Program
    [.ImportDeclaration [.ImportDefaultSpecifier (.Identifier "d")] "m",
     .ExportDefaultDeclaration (.Literal "1"),
     .ExportNamedDeclaration none [.ExportSpecifier (.Identifier "a") (.Identifier "a")]]

/-- Concrete input: two separate unrenamed named imports (of x and then of
y) naming the same module a. -/
def sharedModuleTree : Node :=
  .Program
    [.ImportDeclaration [.ImportSpecifier (.Identifier "x") (.Identifier "x")] "a",
     .ImportDeclaration [.ImportSpecifier (.Identifier "y") (.Identifier "y")] "a"]

/-- Concrete input with no import or export nodes at all. -/
def plainTree : Node :=
  .Program
    [.ExpressionStatement (.CallExpression (.Identifier "f") [.Identifier "x"]),
     .ReturnStatement none]

/-- Concrete input: export (a) with no imports, a specifier-only named
export without declaration. -/
def namedSpecifierTree : Node :=
  .Program
    [.ExpressionStatement (.Identifier "a"),
     .ExportNamedDeclaration none [.ExportSpecifier (.Identifier "a") (.Identifier "b")]]

/-- Concrete input: export const a = 1 with no imports. -/
def namedVariableTree : Node :=
  .Program
    [.ExportNamedDeclaration
      (some (.VariableDeclaration [.VariableDeclarator (.Identifier "a") (some (.Literal "1"))]))
      []]

/-- Invariant threaded through the resolver fold: every named pair emitted
so far carries some parameter v that the memo records under the pair's
element. -/
def ResolveInv (st : List DependencyPair × List (String × String)) : Prop :=
  ∀ pr ∈ st.1, pr.name.isSome = true →
    ∃ v, pr.param = some v ∧ assocLookup st.2 pr.element = some v

/-!
Helper lemmas about the traversal primitives.
-/

theorem hasType_false_iff (k : String) (t : Node) :
    hasType k t = false ↔ findType k t = [] := by
  simp [hasType, List.isEmpty_iff]

theorem hasType_true_iff (k : String) (t : Node) :
    hasType k t = true ↔ findType k t ≠ [] := by
  simp [hasType, List.isEmpty_iff]

theorem findTypeList_append (k : String) (l1 l2 : List Node) :
    findTypeList k (l1 ++ l2) = findTypeList k l1 ++ findTypeList k l2 := by
  induction l1 with
  | nil => simp [findTypeList]
  | cons x xs ih => simp [findTypeList, ih]

theorem findTypeList_eq_nil_iff (k : String) (l : List Node) :
    findTypeList k l = [] ↔ ∀ x ∈ l, findType k x = [] := by
  induction l with
  | nil => simp [findTypeList]
  | cons x xs ih => simp [findTypeList, ih]

theorem findType_ne_nil_of_typeOf (k : String) (t : Node) (h : (typeOf t == k) = true) :
    findType k t ≠ [] := by
  cases t <;> simp_all [findType, typeOf]

theorem typeOf_beq_false_of_findType_nil (k : String) (t : Node) (h : findType k t = []) :
    (typeOf t == k) = false := by
  cases e : (typeOf t == k) with
  | false => rfl
  | true => exact absurd h (findType_ne_nil_of_typeOf k t e)

theorem normalizeList_eq_map (nds : List DependencyPair) (l : List Node) :
    normalizeList nds l = l.map (normalizeNode nds) := by
  induction l with
  | nil => simp [normalizeList]
  | cons x xs ih => simp [normalizeList, ih]

theorem exportDefaultToReturnList_eq_map (l : List Node) :
    exportDefaultToReturnList l = l.map exportDefaultToReturn := by
  induction l with
  | nil => simp [exportDefaultToReturnList]
  | cons x xs ih => simp [exportDefaultToReturnList, ih]

theorem exportNamedToDeclarationList_eq_map (l : List Node) :
    exportNamedToDeclarationList l = l.map exportNamedToDeclaration := by
  induction l with
  | nil => simp [exportNamedToDeclarationList]
  | cons x xs ih => simp [exportNamedToDeclarationList, ih]

theorem findTypeList_of_clean (k : String) (l : List Node) (h : ∀ s ∈ l, stmtClean k s) :
    findTypeList k l = l.filter (fun s => typeOf s == k) := by
  induction l with
  | nil => simp [findTypeList]
  | cons x xs ih =>
    have hx := h x (by simp)
    have ihx := ih (fun s hs => h s (by simp [hs]))
    unfold stmtClean at hx
    cases e : (typeOf x == k) with
    | true => simp [findTypeList, hx, e, List.filter, ihx]
    | false => simp [findTypeList, hx, e, List.filter, ihx]

mutual

/-- removeType is the identity on a tree containing no node of the removed
type. -/
theorem removeType_id_of_free (k : String) : (t : Node) → findType k t = [] →
    removeType k t = t
  | .Program body => fun h => by
    simp [findType] at h
    simp [removeType, removeTypeList_id_of_free k body h.2]
  | .ImportDeclaration specifiers src => fun h => by
    simp [findType] at h
    simp [removeType, removeTypeList_id_of_free k specifiers h.2]
  | .ImportDefaultSpecifier l => fun h => by
    simp [findType] at h
    simp [removeType, removeType_id_of_free k l h.2]
  | .ImportNamespaceSpecifier l => fun h => by
    simp [findType] at h
    simp [removeType, removeType_id_of_free k l h.2]
  | .ImportSpecifier imported l => fun h => by
    simp [findType] at h
    simp [removeType, removeType_id_of_free k imported h.2.1, removeType_id_of_free k l h.2.2]
  | .ExportDefaultDeclaration d => fun h => by
    simp [findType] at h
    simp [removeType, removeType_id_of_free k d h.2]
  | .ExportNamedDeclaration d specifiers => fun h => by
    simp [findType] at h
    simp [removeType, removeTypeOpt_id_of_free k d h.2.1,
      removeTypeList_id_of_free k specifiers h.2.2]
  | .ExportSpecifier l e => fun h => by
    simp [findType] at h
    simp [removeType, removeType_id_of_free k l h.2.1, removeType_id_of_free k e h.2.2]
  | .VariableDeclaration declarations => fun h => by
    simp [findType] at h
    simp [removeType, removeTypeList_id_of_free k declarations h.2]
  | .VariableDeclarator i v => fun h => by
    simp [findType] at h
    simp [removeType, removeType_id_of_free k i h.2.1, removeTypeOpt_id_of_free k v h.2.2]
  | .FunctionDeclaration i params body => fun h => by
    simp [findType] at h
    simp [removeType, removeType_id_of_free k i h.2.1,
      removeTypeList_id_of_free k params h.2.2.1, removeType_id_of_free k body h.2.2.2]
  | .ClassDeclaration i => fun h => by
    simp [findType] at h
    simp [removeType, removeType_id_of_free k i h.2]
  | .Identifier nm => fun _ => by simp [removeType]
  | .Literal v => fun _ => by simp [removeType]
  | .MemberExpression o p => fun h => by
    simp [findType] at h
    simp [removeType, removeType_id_of_free k o h.2.1, removeType_id_of_free k p h.2.2]
  | .ObjectExpression properties => fun h => by
    simp [findType] at h
    simp [removeType, removeTypeList_id_of_free k properties h.2]
  | .Property key value sh => fun h => by
    simp [findType] at h
    simp [removeType, removeType_id_of_free k key h.2.1, removeType_id_of_free k value h.2.2]
  | .ArrayExpression elements => fun h => by
    simp [findType] at h
    simp [removeType, removeTypeList_id_of_free k elements h.2]
  | .CallExpression callee arguments => fun h => by
    simp [findType] at h
    simp [removeType, removeType_id_of_free k callee h.2.1,
      removeTypeList_id_of_free k arguments h.2.2]
  | .ExpressionStatement e => fun h => by
    simp [findType] at h
    simp [removeType, removeType_id_of_free k e h.2]
  | .ReturnStatement a => fun h => by
    simp [findType] at h
    simp [removeType, removeTypeOpt_id_of_free k a h.2]
  | .FunctionExpression params body => fun h => by
    simp [findType] at h
    simp [removeType, removeTypeList_id_of_free k params h.2.1,
      removeType_id_of_free k body h.2.2]
  | .BlockStatement body => fun h => by
    simp [findType] at h
    simp [removeType, removeTypeList_id_of_free k body h.2]

theorem removeTypeList_id_of_free (k : String) : (l : List Node) → findTypeList k l = [] →
    removeTypeList k l = l
  | [] => fun _ => by simp [removeTypeList]
  | x :: xs => fun h => by
    simp [findTypeList] at h
    have hx := typeOf_beq_false_of_findType_nil k x h.1
    simp [removeTypeList, hx, removeType_id_of_free k x h.1,
      removeTypeList_id_of_free k xs h.2]

theorem removeTypeOpt_id_of_free (k : String) : (o : Option Node) → findTypeOpt k o = [] →
    removeTypeOpt k o = o
  | none => fun _ => by simp [removeTypeOpt]
  | some x => fun h => by
    simp [findTypeOpt] at h
    have hx := typeOf_beq_false_of_findType_nil k x h
    simp [removeTypeOpt, hx, removeType_id_of_free k x h]

end

mutual

/-- The named-export unwrapping traversal is the identity on a tree that
contains no ExportNamedDeclaration node. -/
theorem eNTD_id_of_free : (t : Node) →
    findType "ExportNamedDeclaration" t = [] → exportNamedToDeclaration t = t
  | .Program body => fun h => by
    simp [findType] at h
    simp [exportNamedToDeclaration, eNTDList_id_of_free body h.2]
  | .ImportDeclaration specifiers src => fun h => by
    simp [findType] at h
    simp [exportNamedToDeclaration, eNTDList_id_of_free specifiers h.2]
  | .ImportDefaultSpecifier l => fun h => by
    simp [findType] at h
    simp [exportNamedToDeclaration, eNTD_id_of_free l h.2]
  | .ImportNamespaceSpecifier l => fun h => by
    simp [findType] at h
    simp [exportNamedToDeclaration, eNTD_id_of_free l h.2]
  | .ImportSpecifier imported l => fun h => by
    simp [findType] at h
    simp [exportNamedToDeclaration, eNTD_id_of_free imported h.2.1, eNTD_id_of_free l h.2.2]
  | .ExportDefaultDeclaration d => fun h => by
    simp [findType] at h
    simp [exportNamedToDeclaration, eNTD_id_of_free d h.2]
  | .ExportNamedDeclaration d specifiers => fun h => by
    simp [findType, typeOf] at h
  | .ExportSpecifier l e => fun h => by
    simp [findType] at h
    simp [exportNamedToDeclaration, eNTD_id_of_free l h.2.1, eNTD_id_of_free e h.2.2]
  | .VariableDeclaration declarations => fun h => by
    simp [findType] at h
    simp [exportNamedToDeclaration, eNTDList_id_of_free declarations h.2]
  | .VariableDeclarator i v => fun h => by
    simp [findType] at h
    simp [exportNamedToDeclaration, eNTD_id_of_free i h.2.1, eNTDOpt_id_of_free v h.2.2]
  | .FunctionDeclaration i params body => fun h => by
    simp [findType] at h
    simp [exportNamedToDeclaration, eNTD_id_of_free i h.2.1,
      eNTDList_id_of_free params h.2.2.1, eNTD_id_of_free body h.2.2.2]
  | .ClassDeclaration i => fun h => by
    simp [findType] at h
    simp [exportNamedToDeclaration, eNTD_id_of_free i h.2]
  | .Identifier nm => fun _ => by simp [exportNamedToDeclaration]
  | .Literal v => fun _ => by simp [exportNamedToDeclaration]
  | .MemberExpression o p => fun h => by
    simp [findType] at h
    simp [exportNamedToDeclaration, eNTD_id_of_free o h.2.1, eNTD_id_of_free p h.2.2]
  | .ObjectExpression properties => fun h => by
    simp [findType] at h
    simp [exportNamedToDeclaration, eNTDList_id_of_free properties h.2]
  | .Property key value sh => fun h => by
    simp [findType] at h
    simp [exportNamedToDeclaration, eNTD_id_of_free key h.2.1, eNTD_id_of_free value h.2.2]
  | .ArrayExpression elements => fun h => by
    simp [findType] at h
    simp [exportNamedToDeclaration, eNTDList_id_of_free elements h.2]
  | .CallExpression callee arguments => fun h => by
    simp [findType] at h
    simp [exportNamedToDeclaration, eNTD_id_of_free callee h.2.1,
      eNTDList_id_of_free arguments h.2.2]
  | .ExpressionStatement e => fun h => by
    simp [findType] at h
    simp [exportNamedToDeclaration, eNTD_id_of_free e h.2]
  | .ReturnStatement a => fun h => by
    simp [findType] at h
    simp [exportNamedToDeclaration, eNTDOpt_id_of_free a h.2]
  | .FunctionExpression params body => fun h => by
    simp [findType] at h
    simp [exportNamedToDeclaration, eNTDList_id_of_free params h.2.1,
      eNTD_id_of_free body h.2.2]
  | .BlockStatement body => fun h => by
    simp [findType] at h
    simp [exportNamedToDeclaration, eNTDList_id_of_free body h.2]

theorem eNTDList_id_of_free : (l : List Node) →
    findTypeList "ExportNamedDeclaration" l = [] → exportNamedToDeclarationList l = l
  | [] => fun _ => by simp [exportNamedToDeclarationList]
  | x :: xs => fun h => by
    simp [findTypeList] at h
    simp [exportNamedToDeclarationList, eNTD_id_of_free x h.1, eNTDList_id_of_free xs h.2]

theorem eNTDOpt_id_of_free : (o : Option Node) →
    findTypeOpt "ExportNamedDeclaration" o = [] → exportNamedToDeclarationOpt o = o
  | none => fun _ => by simp [exportNamedToDeclarationOpt]
  | some x => fun h => by
    simp [findTypeOpt] at h
    simp [exportNamedToDeclarationOpt, eNTD_id_of_free x h]

end

mutual

/-- The identifier rewriter introduces only MemberExpression and Identifier
nodes: freeness from any other type is preserved. -/
theorem free_normalizeNode (nds : List DependencyPair) (k : String)
    (hk1 : k ≠ "MemberExpression") (hk2 : k ≠ "Identifier") : (t : Node) →
    findType k t = [] → findType k (normalizeNode nds t) = []
  | .Program body => fun h => by
    simp [findType, typeOf] at h
    simp [normalizeNode, findType, typeOf, h.1, free_normalizeList nds k hk1 hk2 body h.2]
  | .ImportDeclaration specifiers src => fun h => by
    simp [findType, typeOf] at h
    simp [normalizeNode, findType, typeOf, h.1, free_normalizeList nds k hk1 hk2 specifiers h.2]
  | .ImportDefaultSpecifier l => fun h => by
    simp [findType, typeOf] at h
    simp [normalizeNode, findType, typeOf, h.1, free_normalizeNode nds k hk1 hk2 l h.2]
  | .ImportNamespaceSpecifier l => fun h => by
    simp [findType, typeOf] at h
    simp [normalizeNode, findType, typeOf, h.1, free_normalizeNode nds k hk1 hk2 l h.2]
  | .ImportSpecifier imported l => fun h => by
    simp [findType, typeOf] at h
    simp [normalizeNode, findType, typeOf, h.1, free_normalizeNode nds k hk1 hk2 imported h.2.1,
      free_normalizeNode nds k hk1 hk2 l h.2.2]
  | .ExportDefaultDeclaration d => fun h => by
    simp [findType, typeOf] at h
    simp [normalizeNode, findType, typeOf, h.1, free_normalizeNode nds k hk1 hk2 d h.2]
  | .ExportNamedDeclaration d specifiers => fun h => by
    simp [findType, typeOf] at h
    simp [normalizeNode, findType, typeOf, h.1, free_normalizeOpt nds k hk1 hk2 d h.2.1,
      free_normalizeList nds k hk1 hk2 specifiers h.2.2]
  | .ExportSpecifier l e => fun h => by
    simp [findType, typeOf] at h
    simp [normalizeNode, findType, typeOf, h.1, free_normalizeNode nds k hk1 hk2 l h.2.1,
      free_normalizeNode nds k hk1 hk2 e h.2.2]
  | .VariableDeclaration declarations => fun h => by
    simp [findType, typeOf] at h
    simp [normalizeNode, findType, typeOf, h.1, free_normalizeList nds k hk1 hk2 declarations h.2]
  | .VariableDeclarator i v => fun h => by
    simp [findType, typeOf] at h
    simp [normalizeNode, findType, typeOf, h.1, free_normalizeNode nds k hk1 hk2 i h.2.1,
      free_normalizeOpt nds k hk1 hk2 v h.2.2]
  | .FunctionDeclaration i params body => fun h => by
    simp [findType, typeOf] at h
    simp [normalizeNode, findType, typeOf, h.1, free_normalizeNode nds k hk1 hk2 i h.2.1,
      free_normalizeList nds k hk1 hk2 params h.2.2.1,
      free_normalizeNode nds k hk1 hk2 body h.2.2.2]
  | .ClassDeclaration i => fun h => by
    simp [findType, typeOf] at h
    simp [normalizeNode, findType, typeOf, h.1, free_normalizeNode nds k hk1 hk2 i h.2]
  | .Identifier nm => fun _ => by
    have hk1b : ("MemberExpression" == k) = false := beq_eq_false_iff_ne.mpr (Ne.symm hk1)
    have hk2b : ("Identifier" == k) = false := beq_eq_false_iff_ne.mpr (Ne.symm hk2)
    cases hl : lookupPair nds nm <;>
      simp [normalizeNode, normalizeVisit, hl, convertIdentifierToMemberExpression,
        findType, typeOf, hk1b, hk2b]
  | .Literal v => fun h => by simp [normalizeNode, findType] at h ⊢; exact h
  | .MemberExpression o p => fun h => by
    simp [findType, typeOf] at h
    simp [normalizeNode, findType, typeOf, h.1, free_normalizeNode nds k hk1 hk2 o h.2.1,
      free_normalizeNode nds k hk1 hk2 p h.2.2]
  | .ObjectExpression properties => fun h => by
    simp [findType, typeOf] at h
    simp [normalizeNode, findType, typeOf, h.1, free_normalizeList nds k hk1 hk2 properties h.2]
  | .Property key value sh => fun h => by
    simp [findType, typeOf] at h
    simp [normalizeNode, findType, typeOf, h.1, free_normalizeNode nds k hk1 hk2 key h.2.1,
      free_normalizeNode nds k hk1 hk2 value h.2.2]
  | .ArrayExpression elements => fun h => by
    simp [findType, typeOf] at h
    simp [normalizeNode, findType, typeOf, h.1, free_normalizeList nds k hk1 hk2 elements h.2]
  | .CallExpression callee arguments => fun h => by
    simp [findType, typeOf] at h
    simp [normalizeNode, findType, typeOf, h.1, free_normalizeNode nds k hk1 hk2 callee h.2.1,
      free_normalizeList nds k hk1 hk2 arguments h.2.2]
  | .ExpressionStatement e => fun h => by
    simp [findType, typeOf] at h
    simp [normalizeNode, findType, typeOf, h.1, free_normalizeNode nds k hk1 hk2 e h.2]
  | .ReturnStatement a => fun h => by
    simp [findType, typeOf] at h
    simp [normalizeNode, findType, typeOf, h.1, free_normalizeOpt nds k hk1 hk2 a h.2]
  | .FunctionExpression params body => fun h => by
    simp [findType, typeOf] at h
    simp [normalizeNode, findType, typeOf, h.1, free_normalizeList nds k hk1 hk2 params h.2.1,
      free_normalizeNode nds k hk1 hk2 body h.2.2]
  | .BlockStatement body => fun h => by
    simp [findType, typeOf] at h
    simp [normalizeNode, findType, typeOf, h.1, free_normalizeList nds k hk1 hk2 body h.2]

theorem free_normalizeList (nds : List DependencyPair) (k : String)
    (hk1 : k ≠ "MemberExpression") (hk2 : k ≠ "Identifier") : (l : List Node) →
    findTypeList k l = [] → findTypeList k (normalizeList nds l) = []
  | [] => fun _ => by simp [normalizeList, findTypeList]
  | x :: xs => fun h => by
    simp [findTypeList] at h
    simp [normalizeList, findTypeList, free_normalizeNode nds k hk1 hk2 x h.1,
      free_normalizeList nds k hk1 hk2 xs h.2]

theorem free_normalizeOpt (nds : List DependencyPair) (k : String)
    (hk1 : k ≠ "MemberExpression") (hk2 : k ≠ "Identifier") : (o : Option Node) →
    findTypeOpt k o = [] → findTypeOpt k (normalizeOpt nds o) = []
  | none => fun _ => by simp [normalizeOpt, findTypeOpt]
  | some x => fun h => by
    simp [findTypeOpt] at h
    simp [normalizeOpt, findTypeOpt, free_normalizeNode nds k hk1 hk2 x h]

end

/-- The identifier rewriter does not change whether a node's type tag equals
a type other than MemberExpression and Identifier. -/
theorem tag_beq_normalize (nds : List DependencyPair) (k : String)
    (hk1 : k ≠ "MemberExpression") (hk2 : k ≠ "Identifier") (s : Node) :
    ((typeOf (normalizeNode nds s) == k) = (typeOf s == k)) := by
  have hk1b : ("MemberExpression" == k) = false := beq_eq_false_iff_ne.mpr (Ne.symm hk1)
  have hk2b : ("Identifier" == k) = false := beq_eq_false_iff_ne.mpr (Ne.symm hk2)
  cases s
  case Identifier nm =>
    cases hl : lookupPair nds nm <;>
      simp [normalizeNode, normalizeVisit, hl, convertIdentifierToMemberExpression,
        typeOf, hk1b, hk2b]
  all_goals simp [normalizeNode, typeOf]

/-- A node whose type tag is ExportDefaultDeclaration is an
ExportDefaultDeclaration node. -/
theorem exportDefault_inv (s : Node)
    (h : (typeOf s == "ExportDefaultDeclaration") = true) :
    ∃ d, s = .ExportDefaultDeclaration d := by
  cases s <;> simp_all [typeOf]

/-- A node whose type tag is ExportNamedDeclaration is an
ExportNamedDeclaration node. -/
theorem exportNamed_inv (s : Node)
    (h : (typeOf s == "ExportNamedDeclaration") = true) :
    ∃ od specs, s = .ExportNamedDeclaration od specs := by
  cases s <;> simp_all [typeOf]

/-- A clean statement whose tag is not the type is free of it. -/
theorem stmtClean_free (k : String) (s : Node) (h : stmtClean k s)
    (ht : (typeOf s == k) = false) : findType k s = [] := by
  unfold stmtClean at h
  rw [h]
  simp [ht]

/-- Cleanliness of the three kinds is preserved by the identifier rewriter
for the two export kinds (the rewriter cannot create or destroy top-level
export declarations, and keeps their subtrees free). -/
theorem normalize_clean_named (nds : List DependencyPair) (s : Node)
    (h : stmtClean "ExportNamedDeclaration" s) :
    stmtClean "ExportNamedDeclaration" (normalizeNode nds s) := by
  cases hEN : (typeOf s == "ExportNamedDeclaration") with
  | true =>
    obtain ⟨od, specs, rfl⟩ := exportNamed_inv s hEN
    unfold stmtClean at h ⊢
    simp [findType, typeOf] at h
    simp [normalizeNode, findType, typeOf,
      free_normalizeOpt nds _ (by decide) (by decide) od h.1,
      free_normalizeList nds _ (by decide) (by decide) specs h.2]
  | false =>
    have hfree := stmtClean_free _ s h hEN
    have hout := free_normalizeNode nds _ (by decide) (by decide) s hfree
    unfold stmtClean
    rw [hout, typeOf_beq_false_of_findType_nil _ _ hout]
    simp

/-- Cleanliness for ExportDefaultDeclaration is preserved by the identifier
rewriter. -/
theorem normalize_clean_default (nds : List DependencyPair) (s : Node)
    (h : stmtClean "ExportDefaultDeclaration" s) :
    stmtClean "ExportDefaultDeclaration" (normalizeNode nds s) := by
  cases hED : (typeOf s == "ExportDefaultDeclaration") with
  | true =>
    obtain ⟨d, rfl⟩ := exportDefault_inv s hED
    unfold stmtClean at h ⊢
    simp [findType, typeOf] at h
    simp [normalizeNode, findType, typeOf,
      free_normalizeNode nds _ (by decide) (by decide) d h]
  | false =>
    have hfree := stmtClean_free _ s h hED
    have hout := free_normalizeNode nds _ (by decide) (by decide) s hfree
    unfold stmtClean
    rw [hout, typeOf_beq_false_of_findType_nil _ _ hout]
    simp

/-- On every node that is not itself an ExportNamedDeclaration, the
children-only walk coincides with the full traversal. -/
theorem eNChildren_eq_eNTD (t : Node)
    (h : (typeOf t == "ExportNamedDeclaration") = false) :
    exportNamedChildren t = exportNamedToDeclaration t := by
  cases t <;> simp_all [exportNamedChildren, exportNamedToDeclaration, typeOf]

/-- The children-only walk is the identity on a tree containing no
ExportNamedDeclaration node. -/
theorem eNChildren_id_of_free (t : Node)
    (h : findType "ExportNamedDeclaration" t = []) :
    exportNamedChildren t = t := by
  rw [eNChildren_eq_eNTD t (typeOf_beq_false_of_findType_nil _ t h)]
  exact eNTD_id_of_free t h

/-- A statement that is not an ExportNamedDeclaration is kept by the
named-export unwrapping. -/
theorem unwrapExportNamed_of_not_named (s : Node)
    (h : (typeOf s == "ExportNamedDeclaration") = false) :
    unwrapExportNamed s = some s := by
  cases s <;> simp_all [unwrapExportNamed, typeOf]

/-- A clean statement whose tag is the type finds exactly itself. -/
theorem stmtClean_self (k : String) (s : Node) (h : stmtClean k s)
    (ht : (typeOf s == k) = true) : findType k s = [s] := by
  unfold stmtClean at h
  rw [h]
  simp [ht]

/-- Under elementwise cleanliness, emptiness of the find over a statement
list is equivalent to no statement carrying the tag. -/
theorem clean_findTypeList_nil_iff (k : String) (l : List Node)
    (h : ∀ s ∈ l, stmtClean k s) :
    (findTypeList k l = [] ↔ ∀ s ∈ l, (typeOf s == k) = false) := by
  rw [findTypeList_eq_nil_iff]
  constructor
  · intro hf s hs
    exact typeOf_beq_false_of_findType_nil k s (hf s hs)
  · intro ht s hs
    exact stmtClean_free k s (h s hs) (ht s hs)

/-- Under elementwise cleanliness, removal over a statement list filters out
exactly the statements carrying the tag. -/
theorem removeTypeList_of_clean (k : String) (l : List Node)
    (h : ∀ s ∈ l, stmtClean k s) :
    removeTypeList k l = l.filter (fun s => !(typeOf s == k)) := by
  induction l with
  | nil => simp [removeTypeList]
  | cons x xs ih =>
    have hx := h x (by simp)
    have ihx := ih (fun s hs => h s (by simp [hs]))
    cases e : (typeOf x == k) with
    | true => simp [removeTypeList, e, ihx]
    | false =>
      have hfree := stmtClean_free k x hx e
      simp [removeTypeList, e, removeType_id_of_free k x hfree, ihx]

/-- What the named-export unwrapping leaves of a statement free of a type is
itself free of that type. -/
theorem unwrap_free (k : String) (s t : Node) (hu : unwrapExportNamed s = some t)
    (h : findType k s = []) : findType k t = [] := by
  cases s
  case ExportNamedDeclaration od specs =>
    cases od with
    | some d =>
      simp [unwrapExportNamed] at hu
      subst hu
      simp [findType, findTypeOpt] at h
      exact h.2.1
    | none => simp [unwrapExportNamed] at hu
  all_goals (simp [unwrapExportNamed] at hu; subst hu; exact h)

/-- What the named-export unwrapping leaves of a clean statement is free of
ExportNamedDeclaration nodes. -/
theorem unwrap_free_named (s t : Node) (hu : unwrapExportNamed s = some t)
    (h : stmtClean "ExportNamedDeclaration" s) :
    findType "ExportNamedDeclaration" t = [] := by
  cases hEN : (typeOf s == "ExportNamedDeclaration") with
  | true =>
    obtain ⟨od, specs, rfl⟩ := exportNamed_inv s hEN
    cases od with
    | some d =>
      simp [unwrapExportNamed] at hu
      subst hu
      have hself := stmtClean_self _ _ h hEN
      simp [findType, typeOf, findTypeOpt] at hself
      exact hself.1
    | none => simp [unwrapExportNamed] at hu
  | false =>
    exact unwrap_free _ s t hu (stmtClean_free _ s h hEN)

/-- A property wrapper around a free node is free of every type other than
Property. -/
theorem free_getProperty (k : String) (hk : k ≠ "Property") (x : Node) (b : Bool)
    (h : findType k x = []) : findType k (getProperty x b) = [] := by
  have hkb : ("Property" == k) = false := beq_eq_false_iff_ne.mpr (Ne.symm hk)
  simp [getProperty, findType, typeOf, hkb, h]

/-- The node read off the local field of a free specifier (or the undefined
identifier when the field is missing) is free of every type other than
Identifier. -/
theorem free_localField (k : String) (hk : k ≠ "Identifier") (n : Node)
    (h : findType k n = []) :
    findType k ((localField n).getD (.Identifier "undefined")) = [] := by
  have hkb : ("Identifier" == k) = false := beq_eq_false_iff_ne.mpr (Ne.symm hk)
  cases n <;> simp_all [localField, findType, typeOf, hkb]

/-- The node read off the id field of a free declaration (or the undefined
identifier when the field is missing) is free of every type other than
Identifier. -/
theorem free_idField (k : String) (hk : k ≠ "Identifier") (n : Node)
    (h : findType k n = []) :
    findType k ((idField n).getD (.Identifier "undefined")) = [] := by
  have hkb : ("Identifier" == k) = false := beq_eq_false_iff_ne.mpr (Ne.symm hk)
  cases n <;> simp_all [idField, findType, typeOf, findTypeOpt, hkb]

/-- The properties produced for an export declaration with free children are
free of every type other than Identifier and Property. -/
theorem free_mapDeclarationToProperty (k : String) (hkI : k ≠ "Identifier")
    (hkP : k ≠ "Property") (od : Option Node) (specs : List Node)
    (hod : findTypeOpt k od = []) (hspecs : findTypeList k specs = []) :
    findTypeList k (mapDeclarationToProperty (.ExportNamedDeclaration od specs)) = [] := by
  cases od with
  | none =>
    simp only [mapDeclarationToProperty]
    rw [findTypeList_eq_nil_iff]
    intro x hx
    simp only [List.mem_map] at hx
    obtain ⟨n, hn, rfl⟩ := hx
    have hnf : findType k n = [] := (findTypeList_eq_nil_iff _ _).mp hspecs n hn
    exact free_getProperty k hkP _ _ (free_localField k hkI n hnf)
  | some d =>
    have hd : findType k d = [] := by simpa [findTypeOpt] using hod
    cases d
    case VariableDeclaration ds =>
      have hds : findTypeList k ds = [] := by
        simp [findType] at hd
        exact hd.2
      simp only [mapDeclarationToProperty]
      rw [findTypeList_eq_nil_iff]
      intro x hx
      simp only [List.mem_map] at hx
      obtain ⟨n, hn, rfl⟩ := hx
      have hnf := (findTypeList_eq_nil_iff _ _).mp hds n hn
      exact free_getProperty k hkP _ _ (free_idField k hkI n hnf)
    all_goals simp [mapDeclarationToProperty, findTypeList,
      free_getProperty k hkP _ _ (free_idField k hkI _ hd)]

/-- Shape of the two-argument define wrapping on a program. -/
theorem wrapWith_shape (pairs : List DependencyPair) (X : List Node) :
    wrapWithDefineWithArrayExpression pairs (.Program X) =
      .Program [getDefine
        [getArrayExpression ((uniqBy pairKey pairs).map (fun p => Node.Literal p.element)),
         getFunctionExpression
           (((uniqBy pairKey pairs).filter truthyParam).map
             (fun p => Node.Identifier (p.param.getD "undefined"))) X]] := by
  simp [wrapWithDefineWithArrayExpression, wrapBody, List.map_map, Function.comp_def]

/-- Absence of a non-Program type in a program is absence in its statement
list. -/
theorem hasType_Program_false_iff (k : String) (hk : k ≠ "Program") (l : List Node) :
    (hasType k (.Program l) = false ↔ findTypeList k l = []) := by
  rw [hasType_false_iff]
  have hkb : ("Program" == k) = false := beq_eq_false_iff_ne.mpr (Ne.symm hk)
  simp [findType, typeOf, hkb]

/-- A list of literal nodes is free of every type other than Literal. -/
theorem findTypeList_map_literal (k : String) (hk : k ≠ "Literal") {α : Type}
    (f : α → String) (l : List α) :
    findTypeList k (l.map (fun a => Node.Literal (f a))) = [] := by
  have hkb : ("Literal" == k) = false := beq_eq_false_iff_ne.mpr (Ne.symm hk)
  rw [findTypeList_eq_nil_iff]
  intro x hx
  obtain ⟨a, _, rfl⟩ := List.mem_map.mp hx
  simp [findType, typeOf, hkb]

/-- A list of identifier nodes is free of every type other than Identifier. -/
theorem findTypeList_map_identifier (k : String) (hk : k ≠ "Identifier") {α : Type}
    (f : α → String) (l : List α) :
    findTypeList k (l.map (fun a => Node.Identifier (f a))) = [] := by
  have hkb : ("Identifier" == k) = false := beq_eq_false_iff_ne.mpr (Ne.symm hk)
  rw [findTypeList_eq_nil_iff]
  intro x hx
  obtain ⟨a, _, rfl⟩ := List.mem_map.mp hx
  simp [findType, typeOf, hkb]

/-- The two artifacts of the named-export conversion, the unwrapped
statement list and the collected properties, are free of a type when every
statement contributes free pieces. -/
theorem named_pieces_free (k : String) (hkI : k ≠ "Identifier") (hkP : k ≠ "Property")
    (l : List Node)
    (hpieces : ∀ s ∈ l,
      (∀ t, unwrapExportNamed s = some t → findType k t = []) ∧
      ((typeOf s == "ExportNamedDeclaration") = true →
        ∃ od specs, s = Node.ExportNamedDeclaration od specs ∧
          findTypeOpt k od = [] ∧ findTypeList k specs = [])) :
    findTypeList k (l.filterMap unwrapExportNamed) = [] ∧
    findTypeList k (mapDeclarationsToProperties
      (l.filter (fun s => typeOf s == "ExportNamedDeclaration"))) = [] := by
  constructor
  · rw [findTypeList_eq_nil_iff]
    intro t ht
    obtain ⟨s, hs, hu⟩ := List.mem_filterMap.mp ht
    exact (hpieces s hs).1 t hu
  · rw [findTypeList_eq_nil_iff]
    intro x hx
    unfold mapDeclarationsToProperties at hx
    obtain ⟨pl, hpl, hx2⟩ := List.mem_flatten.mp hx
    obtain ⟨decl, hdecl, rfl⟩ := List.mem_map.mp hpl
    have hdmem := List.mem_filter.mp hdecl
    obtain ⟨od, specs, heq, hod, hspecs⟩ := (hpieces decl hdmem.1).2 hdmem.2
    subst heq
    have hfree := free_mapDeclarationToProperty k hkI hkP od specs hod hspecs
    exact (findTypeList_eq_nil_iff _ _).mp hfree x hx2

/-- Instantiation of named_pieces_free for the converted type itself, from
elementwise cleanliness. -/
theorem named_pieces_free_N (l : List Node)
    (hcleanN : ∀ s ∈ l, stmtClean "ExportNamedDeclaration" s) :
    findTypeList "ExportNamedDeclaration" (l.filterMap unwrapExportNamed) = [] ∧
    findTypeList "ExportNamedDeclaration" (mapDeclarationsToProperties
      (l.filter (fun s => typeOf s == "ExportNamedDeclaration"))) = [] := by
  apply named_pieces_free _ (by decide) (by decide)
  intro s hs
  constructor
  · intro t hu
    exact unwrap_free_named s t hu (hcleanN s hs)
  · intro htag
    obtain ⟨od, specs, rfl⟩ := exportNamed_inv s htag
    have hself := stmtClean_self _ _ (hcleanN _ hs) htag
    simp [findType, typeOf] at hself
    exact ⟨od, specs, rfl, hself.1, hself.2⟩

/-- Instantiation of named_pieces_free for another type, from elementwise
freeness. -/
theorem named_pieces_free_other (k : String) (hkI : k ≠ "Identifier")
    (hkP : k ≠ "Property") (l : List Node) (hfree : findTypeList k l = []) :
    findTypeList k (l.filterMap unwrapExportNamed) = [] ∧
    findTypeList k (mapDeclarationsToProperties
      (l.filter (fun s => typeOf s == "ExportNamedDeclaration"))) = [] := by
  apply named_pieces_free k hkI hkP
  intro s hs
  have hsf : findType k s = [] := (findTypeList_eq_nil_iff _ _).mp hfree s hs
  constructor
  · intro t hu
    exact unwrap_free k s t hu hsf
  · intro htag
    obtain ⟨od, specs, rfl⟩ := exportNamed_inv s htag
    simp [findType] at hsf
    exact ⟨od, specs, rfl, hsf.2.1, hsf.2.2⟩

/-- The dispatcher leaves a tree without any of the three declaration types
unchanged. -/
theorem convert_id_of_free (t : Node)
    (hI : hasType "ImportDeclaration" t = false)
    (hD : hasType "ExportDefaultDeclaration" t = false)
    (hN : hasType "ExportNamedDeclaration" t = false) :
    convert t = t := by
  simp [convert, hI, hD, hN]

theorem eDTR_useStrictStatement :
    exportDefaultToReturn useStrictStatement = useStrictStatement := rfl

mutual

/-- The default-to-return rewrite leaves no ExportDefaultDeclaration node
anywhere in the tree. -/
theorem findDefault_eDTR : (t : Node) →
    findType "ExportDefaultDeclaration" (exportDefaultToReturn t) = []
  | .Program body => by
    simp [exportDefaultToReturn, findType, typeOf, findDefault_eDTRList body]
  | .ImportDeclaration specifiers src => by
    simp [exportDefaultToReturn, findType, typeOf, findDefault_eDTRList specifiers]
  | .ImportDefaultSpecifier l => by
    simp [exportDefaultToReturn, findType, typeOf, findDefault_eDTR l]
  | .ImportNamespaceSpecifier l => by
    simp [exportDefaultToReturn, findType, typeOf, findDefault_eDTR l]
  | .ImportSpecifier imported l => by
    simp [exportDefaultToReturn, findType, typeOf, findDefault_eDTR imported, findDefault_eDTR l]
  | .ExportDefaultDeclaration d => by
    simp [exportDefaultToReturn, findType, typeOf, findDefault_eDTR d, findTypeOpt]
  | .ExportNamedDeclaration d specifiers => by
    simp [exportDefaultToReturn, findType, typeOf, findDefault_eDTROpt d,
      findDefault_eDTRList specifiers]
  | .ExportSpecifier l e => by
    simp [exportDefaultToReturn, findType, typeOf, findDefault_eDTR l, findDefault_eDTR e]
  | .VariableDeclaration declarations => by
    simp [exportDefaultToReturn, findType, typeOf, findDefault_eDTRList declarations]
  | .VariableDeclarator i v => by
    simp [exportDefaultToReturn, findType, typeOf, findDefault_eDTR i, findDefault_eDTROpt v]
  | .FunctionDeclaration i params body => by
    simp [exportDefaultToReturn, findType, typeOf, findDefault_eDTR i,
      findDefault_eDTRList params, findDefault_eDTR body]
  | .ClassDeclaration i => by
    simp [exportDefaultToReturn, findType, typeOf, findDefault_eDTR i]
  | .Identifier nm => by simp [exportDefaultToReturn, findType, typeOf]
  | .Literal v => by simp [exportDefaultToReturn, findType, typeOf]
  | .MemberExpression o p => by
    simp [exportDefaultToReturn, findType, typeOf, findDefault_eDTR o, findDefault_eDTR p]
  | .ObjectExpression properties => by
    simp [exportDefaultToReturn, findType, typeOf, findDefault_eDTRList properties]
  | .Property key value sh => by
    simp [exportDefaultToReturn, findType, typeOf, findDefault_eDTR key, findDefault_eDTR value]
  | .ArrayExpression elements => by
    simp [exportDefaultToReturn, findType, typeOf, findDefault_eDTRList elements]
  | .CallExpression callee arguments => by
    simp [exportDefaultToReturn, findType, typeOf, findDefault_eDTR callee,
      findDefault_eDTRList arguments]
  | .ExpressionStatement e => by
    simp [exportDefaultToReturn, findType, typeOf, findDefault_eDTR e]
  | .ReturnStatement a => by
    simp [exportDefaultToReturn, findType, typeOf, findDefault_eDTROpt a]
  | .FunctionExpression params body => by
    simp [exportDefaultToReturn, findType, typeOf, findDefault_eDTRList params,
      findDefault_eDTR body]
  | .BlockStatement body => by
    simp [exportDefaultToReturn, findType, typeOf, findDefault_eDTRList body]

theorem findDefault_eDTRList : (l : List Node) →
    findTypeList "ExportDefaultDeclaration" (exportDefaultToReturnList l) = []
  | [] => by simp [exportDefaultToReturnList, findTypeList]
  | x :: xs => by
    simp [exportDefaultToReturnList, findTypeList, findDefault_eDTR x, findDefault_eDTRList xs]

theorem findDefault_eDTROpt : (o : Option Node) →
    findTypeOpt "ExportDefaultDeclaration" (exportDefaultToReturnOpt o) = []
  | none => by simp [exportDefaultToReturnOpt, findTypeOpt]
  | some x => by simp [exportDefaultToReturnOpt, findTypeOpt, findDefault_eDTR x]

end

mutual

/-- The default-to-return rewrite preserves the number of nodes of every
type other than the two involved in the rewrite itself. -/
theorem length_find_eDTR (k : String) (hD : k ≠ "ExportDefaultDeclaration")
    (hR : k ≠ "ReturnStatement") : (t : Node) →
    (findType k (exportDefaultToReturn t)).length = (findType k t).length
  | .Program body => by
    cases e : ("Program" == k) <;>
      simp [exportDefaultToReturn, findType, typeOf, e, length_find_eDTRList k hD hR body]
  | .ImportDeclaration specifiers src => by
    cases e : ("ImportDeclaration" == k) <;>
      simp [exportDefaultToReturn, findType, typeOf, e, length_find_eDTRList k hD hR specifiers]
  | .ImportDefaultSpecifier l => by
    cases e : ("ImportDefaultSpecifier" == k) <;>
      simp [exportDefaultToReturn, findType, typeOf, e, length_find_eDTR k hD hR l]
  | .ImportNamespaceSpecifier l => by
    cases e : ("ImportNamespaceSpecifier" == k) <;>
      simp [exportDefaultToReturn, findType, typeOf, e, length_find_eDTR k hD hR l]
  | .ImportSpecifier imported l => by
    cases e : ("ImportSpecifier" == k) <;>
      simp [exportDefaultToReturn, findType, typeOf, e, length_find_eDTR k hD hR imported,
        length_find_eDTR k hD hR l]
  | .ExportDefaultDeclaration d => by
    have hD2 : ("ExportDefaultDeclaration" == k) = false := beq_eq_false_iff_ne.mpr (Ne.symm hD)
    have hR2 : ("ReturnStatement" == k) = false := beq_eq_false_iff_ne.mpr (Ne.symm hR)
    simp [exportDefaultToReturn, findType, typeOf, findTypeOpt, hD2, hR2,
      length_find_eDTR k hD hR d]
  | .ExportNamedDeclaration d specifiers => by
    cases e : ("ExportNamedDeclaration" == k) <;>
      simp [exportDefaultToReturn, findType, typeOf, e, length_find_eDTROpt k hD hR d,
        length_find_eDTRList k hD hR specifiers]
  | .ExportSpecifier l ex => by
    cases e : ("ExportSpecifier" == k) <;>
      simp [exportDefaultToReturn, findType, typeOf, e, length_find_eDTR k hD hR l,
        length_find_eDTR k hD hR ex]
  | .VariableDeclaration declarations => by
    cases e : ("VariableDeclaration" == k) <;>
      simp [exportDefaultToReturn, findType, typeOf, e, length_find_eDTRList k hD hR declarations]
  | .VariableDeclarator i v => by
    cases e : ("VariableDeclarator" == k) <;>
      simp [exportDefaultToReturn, findType, typeOf, e, length_find_eDTR k hD hR i,
        length_find_eDTROpt k hD hR v]
  | .FunctionDeclaration i params body => by
    cases e : ("FunctionDeclaration" == k) <;>
      simp [exportDefaultToReturn, findType, typeOf, e, length_find_eDTR k hD hR i,
        length_find_eDTRList k hD hR params, length_find_eDTR k hD hR body]
  | .ClassDeclaration i => by
    cases e : ("ClassDeclaration" == k) <;>
      simp [exportDefaultToReturn, findType, typeOf, e, length_find_eDTR k hD hR i]
  | .Identifier nm => by
    cases e : ("Identifier" == k) <;> simp [exportDefaultToReturn, findType, typeOf, e]
  | .Literal v => by
    cases e : ("Literal" == k) <;> simp [exportDefaultToReturn, findType, typeOf, e]
  | .MemberExpression o p => by
    cases e : ("MemberExpression" == k) <;>
      simp [exportDefaultToReturn, findType, typeOf, e, length_find_eDTR k hD hR o,
        length_find_eDTR k hD hR p]
  | .ObjectExpression properties => by
    cases e : ("ObjectExpression" == k) <;>
      simp [exportDefaultToReturn, findType, typeOf, e, length_find_eDTRList k hD hR properties]
  | .Property key value sh => by
    cases e : ("Property" == k) <;>
      simp [exportDefaultToReturn, findType, typeOf, e, length_find_eDTR k hD hR key,
        length_find_eDTR k hD hR value]
  | .ArrayExpression elements => by
    cases e : ("ArrayExpression" == k) <;>
      simp [exportDefaultToReturn, findType, typeOf, e, length_find_eDTRList k hD hR elements]
  | .CallExpression callee arguments => by
    cases e : ("CallExpression" == k) <;>
      simp [exportDefaultToReturn, findType, typeOf, e, length_find_eDTR k hD hR callee,
        length_find_eDTRList k hD hR arguments]
  | .ExpressionStatement e2 => by
    cases e : ("ExpressionStatement" == k) <;>
      simp [exportDefaultToReturn, findType, typeOf, e, length_find_eDTR k hD hR e2]
  | .ReturnStatement a => by
    cases e : ("ReturnStatement" == k) <;>
      simp [exportDefaultToReturn, findType, typeOf, e, length_find_eDTROpt k hD hR a]
  | .FunctionExpression params body => by
    cases e : ("FunctionExpression" == k) <;>
      simp [exportDefaultToReturn, findType, typeOf, e, length_find_eDTRList k hD hR params,
        length_find_eDTR k hD hR body]
  | .BlockStatement body => by
    cases e : ("BlockStatement" == k) <;>
      simp [exportDefaultToReturn, findType, typeOf, e, length_find_eDTRList k hD hR body]

theorem length_find_eDTRList (k : String) (hD : k ≠ "ExportDefaultDeclaration")
    (hR : k ≠ "ReturnStatement") : (l : List Node) →
    (findTypeList k (exportDefaultToReturnList l)).length = (findTypeList k l).length
  | [] => by simp [exportDefaultToReturnList, findTypeList]
  | x :: xs => by
    simp [exportDefaultToReturnList, findTypeList, length_find_eDTR k hD hR x,
      length_find_eDTRList k hD hR xs]

theorem length_find_eDTROpt (k : String) (hD : k ≠ "ExportDefaultDeclaration")
    (hR : k ≠ "ReturnStatement") : (o : Option Node) →
    (findTypeOpt k (exportDefaultToReturnOpt o)).length = (findTypeOpt k o).length
  | none => by simp [exportDefaultToReturnOpt, findTypeOpt]
  | some x => by simp [exportDefaultToReturnOpt, findTypeOpt, length_find_eDTR k hD hR x]

end

/-- Unfolding of the no-import default-export path of the dispatcher: the
whole program becomes one define call around a zero-parameter factory whose
block is the use strict directive followed by the statements with every
ExportDefaultDeclaration rewritten in place into a return statement. -/
theorem convert_default_path (body : List Node)
    (hI : hasType "ImportDeclaration" (.Program body) = false)
    (hD : hasType "ExportDefaultDeclaration" (.Program body) = true) :
    convert (.Program body) =
      .Program [getDefine [getFunctionExpression []
        (useStrictStatement :: body.map exportDefaultToReturn)]] := by
  rw [show convert (.Program body) = convertExportDefaultDeclarationToDefine (.Program body) by
    simp [convert, hI, hD]]
  rw [show convertExportDefaultDeclarationToDefine (.Program body) =
    .Program [getDefine [getFunctionExpression []
      (useStrictStatement :: exportDefaultToReturnList body)]] from rfl]
  rw [exportDefaultToReturnList_eq_map]

/-- Unfolding of the no-import named-export path of the dispatcher: the
whole program becomes one define call around a zero-parameter factory whose
block is the use strict directive, the statements with export wrappers
unwrapped and specifier-only exports removed, and a final return of the
collected object expression. -/
theorem convert_named_path (body : List Node)
    (hI : hasType "ImportDeclaration" (.Program body) = false)
    (hD : hasType "ExportDefaultDeclaration" (.Program body) = false)
    (hN : hasType "ExportNamedDeclaration" (.Program body) = true) :
    convert (.Program body) =
      .Program [getDefine [getFunctionExpression []
        (useStrictStatement ::
          (removeTypeList "ExportNamedDeclaration" (body.map exportNamedToDeclaration) ++
            [.ReturnStatement (some (getObjectExpression
              (findTypeList "ExportNamedDeclaration" body)))]))]] := by
  rw [show convert (.Program body) = convertExportNamedDeclarationToDefine (.Program body) by
    simp [convert, hI, hD, hN]]
  rw [show convertExportNamedDeclarationToDefine (.Program body) =
    .Program [getDefine [getFunctionExpression []
      (useStrictStatement ::
        (removeTypeList "ExportNamedDeclaration" (exportNamedToDeclarationList body) ++
          [.ReturnStatement (some (getObjectExpression
            (findTypeList "ExportNamedDeclaration" body)))]))]] from rfl]
  rw [exportNamedToDeclarationList_eq_map]

/-- Under top-level cleanliness, running the unwrapping traversal and then
the wrapper removal over the top-level statement list unwraps exports with
declarations, drops specifier-only exports and keeps everything else. -/
theorem removeTypeList_map_eNTD (body : List Node)
    (hwf : ∀ s ∈ body, stmtClean "ExportNamedDeclaration" s) :
    removeTypeList "ExportNamedDeclaration" (body.map exportNamedToDeclaration) =
      body.filterMap unwrapExportNamed := by
  induction body with
  | nil => simp [removeTypeList]
  | cons s rest ih =>
    have hs := hwf s (by simp)
    have hrest := ih (fun x hx => hwf x (by simp [hx]))
    unfold stmtClean at hs
    cases hEN : (typeOf s == "ExportNamedDeclaration") with
    | true =>
      obtain ⟨od, specs, rfl⟩ := exportNamed_inv s hEN
      simp [findType, typeOf] at hs
      cases od with
      | some d =>
        have hd : findType "ExportNamedDeclaration" d = [] := by
          simpa [findTypeOpt] using hs.1
        have hdt := typeOf_beq_false_of_findType_nil _ d hd
        simp [exportNamedToDeclaration, eNChildren_id_of_free d hd,
          removeTypeList, hdt, removeType_id_of_free _ d hd,
          unwrapExportNamed, hrest]
      | none =>
        simp [exportNamedToDeclaration, removeTypeList, typeOf,
          unwrapExportNamed, hrest]
    | false =>
      have hfree : findType "ExportNamedDeclaration" s = [] := by
        rw [hs]; simp [hEN]
      simp [eNTD_id_of_free s hfree, removeTypeList, hEN,
        removeType_id_of_free _ s hfree,
        unwrapExportNamed_of_not_named s hEN, hrest]

/-- Shape of the named-export conversion on a well-formed program: unwrap,
remove, and append one return of the collected object. -/
theorem convertExportNamedDeclarations_shape (body : List Node)
    (hwf : ∀ s ∈ body, stmtClean "ExportNamedDeclaration" s) :
    convertExportNamedDeclarations (.Program body) =
      .Program (body.filterMap unwrapExportNamed ++
        [.ReturnStatement (some (.ObjectExpression (mapDeclarationsToProperties
          (body.filter (fun s => typeOf s == "ExportNamedDeclaration")))))]) := by
  have h1 : findType "ExportNamedDeclaration" (.Program body) =
      body.filter (fun s => typeOf s == "ExportNamedDeclaration") := by
    simp [findType, typeOf]
    exact findTypeList_of_clean _ body hwf
  unfold convertExportNamedDeclarations convertExportNamedDeclarationToDeclaration
  rw [h1]
  simp [exportNamedToDeclaration, exportNamedToDeclarationList_eq_map, removeType,
    appendStmt, removeTypeList_map_eNTD body hwf, getObjectExpression]

/-- The appended return of the collected object is free of every type other
than ReturnStatement and ObjectExpression when the properties are. -/
theorem findTypeList_return_object (k : String) (hkR : k ≠ "ReturnStatement")
    (hkO : k ≠ "ObjectExpression") (D : List Node)
    (hP : findTypeList k (mapDeclarationsToProperties D) = []) :
    findTypeList k [Node.ReturnStatement (some (getObjectExpression D))] = [] := by
  have h1 : ("ReturnStatement" == k) = false := beq_eq_false_iff_ne.mpr (Ne.symm hkR)
  have h2 : ("ObjectExpression" == k) = false := beq_eq_false_iff_ne.mpr (Ne.symm hkO)
  simp [findTypeList, findType, findTypeOpt, getObjectExpression, typeOf, h1, h2, hP]

/-- Variant of findTypeList_return_object with the object expression
unfolded. -/
theorem findTypeList_return_object2 (k : String) (hkR : k ≠ "ReturnStatement")
    (hkO : k ≠ "ObjectExpression") (D : List Node)
    (hP : findTypeList k (mapDeclarationsToProperties D) = []) :
    findTypeList k
      [Node.ReturnStatement (some (.ObjectExpression (mapDeclarationsToProperties D)))] = [] :=
  findTypeList_return_object k hkR hkO D hP

/-- The one-argument define wrapping of a free factory block is free of the
three declaration types. -/
theorem factory_output_free (Y : List Node) (k : String) (hk : declKind k)
    (hY : findTypeList k Y = []) :
    hasType k (.Program [getDefine [getFunctionExpression []
      (useStrictStatement :: Y)]]) = false := by
  rcases hk with rfl | rfl | rfl <;>
    (rw [hasType_false_iff];
     simp [findType, findTypeList, typeOf, getDefine, getFunctionExpression,
       useStrictStatement, hY])

/-- The two-argument define wrapping of a free factory block is free of the
three declaration types. -/
theorem twoArgDefine_output_free (pairs : List DependencyPair) (Y : List Node) (k : String)
    (hk : declKind k) (hY : findTypeList k Y = []) :
    hasType k (wrapWithDefineWithArrayExpression pairs
      (prependUseStrictLiteral (.Program Y))) = false := by
  have e : prependUseStrictLiteral (.Program Y) = .Program (useStrictStatement :: Y) := rfl
  rw [e, wrapWith_shape]
  rcases hk with rfl | rfl | rfl
  · rw [hasType_false_iff]
    have helems := findTypeList_map_literal "ImportDeclaration" (by decide)
      (fun p : DependencyPair => p.element) (uniqBy pairKey pairs)
    have hparams := findTypeList_map_identifier "ImportDeclaration" (by decide)
      (fun p : DependencyPair => p.param.getD "undefined")
      ((uniqBy pairKey pairs).filter truthyParam)
    simp [findType, findTypeList, typeOf, getDefine, getArrayExpression,
      getFunctionExpression, useStrictStatement, hY, helems, hparams]
  · rw [hasType_false_iff]
    have helems := findTypeList_map_literal "ExportDefaultDeclaration" (by decide)
      (fun p : DependencyPair => p.element) (uniqBy pairKey pairs)
    have hparams := findTypeList_map_identifier "ExportDefaultDeclaration" (by decide)
      (fun p : DependencyPair => p.param.getD "undefined")
      ((uniqBy pairKey pairs).filter truthyParam)
    simp [findType, findTypeList, typeOf, getDefine, getArrayExpression,
      getFunctionExpression, useStrictStatement, hY, helems, hparams]
  · rw [hasType_false_iff]
    have helems := findTypeList_map_literal "ExportNamedDeclaration" (by decide)
      (fun p : DependencyPair => p.element) (uniqBy pairKey pairs)
    have hparams := findTypeList_map_identifier "ExportNamedDeclaration" (by decide)
      (fun p : DependencyPair => p.param.getD "undefined")
      ((uniqBy pairKey pairs).filter truthyParam)
    simp [findType, findTypeList, typeOf, getDefine, getArrayExpression,
      getFunctionExpression, useStrictStatement, hY, helems, hparams]

/-- The core freeness result: on a well-formed program that does not declare
both export forms, the converted tree contains no ImportDeclaration,
ExportDefaultDeclaration or ExportNamedDeclaration node. -/
theorem convert_free3 (body : List Node)
    (hwf : ∀ s ∈ body, stmtClean3 s)
    (hnot : ¬(hasType "ExportDefaultDeclaration" (.Program body) = true ∧
              hasType "ExportNamedDeclaration" (.Program body) = true)) :
    hasType "ImportDeclaration" (convert (.Program body)) = false ∧
    hasType "ExportDefaultDeclaration" (convert (.Program body)) = false ∧
    hasType "ExportNamedDeclaration" (convert (.Program body)) = false := by
  have hwfI : ∀ s ∈ body, stmtClean "ImportDeclaration" s := fun s hs => (hwf s hs).1
  have hwfD : ∀ s ∈ body, stmtClean "ExportDefaultDeclaration" s := fun s hs => (hwf s hs).2.1
  have hwfN : ∀ s ∈ body, stmtClean "ExportNamedDeclaration" s := fun s hs => (hwf s hs).2.2
  cases hI : hasType "ImportDeclaration" (.Program body) with
  | false =>
    cases hD : hasType "ExportDefaultDeclaration" (.Program body) with
    | true =>
      have hN : hasType "ExportNamedDeclaration" (.Program body) = false := by
        cases hN2 : hasType "ExportNamedDeclaration" (.Program body) with
        | true => exact absurd ⟨hD, hN2⟩ hnot
        | false => rfl
      rw [convert_default_path body hI hD]
      have hbI : findTypeList "ImportDeclaration" body = [] :=
        (hasType_Program_false_iff _ (by decide) body).mp hI
      have hbN : findTypeList "ExportNamedDeclaration" body = [] :=
        (hasType_Program_false_iff _ (by decide) body).mp hN
      refine ⟨?_, ?_, ?_⟩
      · refine factory_output_free _ _ (Or.inl rfl) ?_
        rw [← exportDefaultToReturnList_eq_map]
        have hlen := length_find_eDTRList "ImportDeclaration" (by decide) (by decide) body
        rw [hbI] at hlen
        exact List.eq_nil_of_length_eq_zero hlen
      · refine factory_output_free _ _ (Or.inr (Or.inl rfl)) ?_
        rw [← exportDefaultToReturnList_eq_map]
        exact findDefault_eDTRList body
      · refine factory_output_free _ _ (Or.inr (Or.inr rfl)) ?_
        rw [← exportDefaultToReturnList_eq_map]
        have hlen := length_find_eDTRList "ExportNamedDeclaration" (by decide) (by decide) body
        rw [hbN] at hlen
        exact List.eq_nil_of_length_eq_zero hlen
    | false =>
      cases hN : hasType "ExportNamedDeclaration" (.Program body) with
      | false =>
        rw [convert_id_of_free _ hI hD hN]
        exact ⟨hI, hD, hN⟩
      | true =>
        rw [convert_named_path body hI hD hN]
        rw [removeTypeList_map_eNTD body hwfN]
        have hfound : findTypeList "ExportNamedDeclaration" body =
            body.filter (fun s => typeOf s == "ExportNamedDeclaration") :=
          findTypeList_of_clean _ body hwfN
        rw [hfound]
        have hbI : findTypeList "ImportDeclaration" body = [] :=
          (hasType_Program_false_iff _ (by decide) body).mp hI
        have hbD : findTypeList "ExportDefaultDeclaration" body = [] :=
          (hasType_Program_false_iff _ (by decide) body).mp hD
        have hNN := named_pieces_free_N body hwfN
        have hII := named_pieces_free_other "ImportDeclaration" (by decide) (by decide) body hbI
        have hDD := named_pieces_free_other "ExportDefaultDeclaration" (by decide) (by decide)
          body hbD
        refine ⟨?_, ?_, ?_⟩
        · refine factory_output_free _ _ (Or.inl rfl) ?_
          rw [findTypeList_append, hII.1,
            findTypeList_return_object "ImportDeclaration" (by decide) (by decide) _ hII.2]
          rfl
        · refine factory_output_free _ _ (Or.inr (Or.inl rfl)) ?_
          rw [findTypeList_append, hDD.1,
            findTypeList_return_object "ExportDefaultDeclaration" (by decide) (by decide) _ hDD.2]
          rfl
        · refine factory_output_free _ _ (Or.inr (Or.inr rfl)) ?_
          rw [findTypeList_append, hNN.1,
            findTypeList_return_object "ExportNamedDeclaration" (by decide) (by decide) _ hNN.2]
          rfl
  | true =>
    rw [show convert (.Program body) = convertCodeWithImportDeclarations (.Program body) by
      simp [convert, hI]]
    simp only [convertCodeWithImportDeclarations]
    have e1 : removeType "ImportDeclaration" (.Program body) =
        .Program (body.filter (fun s => !(typeOf s == "ImportDeclaration"))) := by
      simp only [removeType]
      rw [removeTypeList_of_clean _ body hwfI]
    rw [e1]
    have e2 : ∀ l : List Node,
        normalizePairs (getDependencyPairs (.Program body)) (.Program l) =
        .Program (l.map (normalizeNode
          ((getDependencyPairs (.Program body)).filter truthyName))) := by
      intro l
      simp [normalizePairs, normalizeNode, normalizeList_eq_map]
    rw [e2]
    have hb1 : ∀ s ∈ body.filter (fun s => !(typeOf s == "ImportDeclaration")),
        s ∈ body ∧ (typeOf s == "ImportDeclaration") = false := by
      intro s hs
      have hm := List.mem_filter.mp hs
      exact ⟨hm.1, by simpa using hm.2⟩
    have hb1I : findTypeList "ImportDeclaration"
        (body.filter (fun s => !(typeOf s == "ImportDeclaration"))) = [] := by
      rw [findTypeList_eq_nil_iff]
      intro s hs
      exact stmtClean_free _ s (hwfI s (hb1 s hs).1) (hb1 s hs).2
    have hb2I : findTypeList "ImportDeclaration"
        ((body.filter (fun s => !(typeOf s == "ImportDeclaration"))).map
          (normalizeNode ((getDependencyPairs (.Program body)).filter truthyName))) = [] := by
      rw [findTypeList_eq_nil_iff]
      intro x hx
      obtain ⟨s, hs, rfl⟩ := List.mem_map.mp hx
      exact free_normalizeNode _ _ (by decide) (by decide) s
        ((findTypeList_eq_nil_iff _ _).mp hb1I s hs)
    have hb2cleanD : ∀ x ∈ (body.filter (fun s => !(typeOf s == "ImportDeclaration"))).map
        (normalizeNode ((getDependencyPairs (.Program body)).filter truthyName)),
        stmtClean "ExportDefaultDeclaration" x := by
      intro x hx
      obtain ⟨s, hs, rfl⟩ := List.mem_map.mp hx
      exact normalize_clean_default _ s (hwfD s (hb1 s hs).1)
    have hb2cleanN : ∀ x ∈ (body.filter (fun s => !(typeOf s == "ImportDeclaration"))).map
        (normalizeNode ((getDependencyPairs (.Program body)).filter truthyName)),
        stmtClean "ExportNamedDeclaration" x := by
      intro x hx
      obtain ⟨s, hs, rfl⟩ := List.mem_map.mp hx
      exact normalize_clean_named _ s (hwfN s (hb1 s hs).1)
    cases hDt2 : hasType "ExportDefaultDeclaration"
        (.Program ((body.filter (fun s => !(typeOf s == "ImportDeclaration"))).map
          (normalizeNode ((getDependencyPairs (.Program body)).filter truthyName)))) with
    | true =>
      simp only [hDt2, if_true]
      have hexD : ∃ s ∈ body, (typeOf s == "ExportDefaultDeclaration") = true := by
        by_contra hc
        push_neg at hc
        have hnil : findTypeList "ExportDefaultDeclaration"
            ((body.filter (fun s => !(typeOf s == "ImportDeclaration"))).map
              (normalizeNode ((getDependencyPairs (.Program body)).filter truthyName))) = [] := by
          rw [findTypeList_eq_nil_iff]
          intro x hx
          obtain ⟨s, hs, rfl⟩ := List.mem_map.mp hx
          have hsmem := (hb1 s hs).1
          have hstag : (typeOf s == "ExportDefaultDeclaration") = false := by
            cases e : (typeOf s == "ExportDefaultDeclaration") with
            | false => rfl
            | true => exact absurd e (by simpa using hc s hsmem)
          exact free_normalizeNode _ _ (by decide) (by decide) s
            (stmtClean_free _ s (hwfD s hsmem) hstag)
        rw [(hasType_Program_false_iff _ (by decide) _).mpr hnil] at hDt2
        exact Bool.noConfusion hDt2
      obtain ⟨s0, hs0, hs0D⟩ := hexD
      have hinD : hasType "ExportDefaultDeclaration" (.Program body) = true := by
        cases e : hasType "ExportDefaultDeclaration" (.Program body) with
        | true => rfl
        | false =>
          have hnil := (hasType_Program_false_iff _ (by decide) body).mp e
          have := (findTypeList_eq_nil_iff _ _).mp hnil s0 hs0
          rw [stmtClean_self _ s0 (hwfD s0 hs0) hs0D] at this
          exact List.noConfusion this
      have hinN : hasType "ExportNamedDeclaration" (.Program body) = false := by
        cases h2 : hasType "ExportNamedDeclaration" (.Program body) with
        | true => exact absurd ⟨hinD, h2⟩ hnot
        | false => rfl
      have hbN : findTypeList "ExportNamedDeclaration" body = [] :=
        (hasType_Program_false_iff _ (by decide) body).mp hinN
      have hb2N : findTypeList "ExportNamedDeclaration"
          ((body.filter (fun s => !(typeOf s == "ImportDeclaration"))).map
            (normalizeNode ((getDependencyPairs (.Program body)).filter truthyName))) = [] := by
        rw [findTypeList_eq_nil_iff]
        intro x hx
        obtain ⟨s, hs, rfl⟩ := List.mem_map.mp hx
        exact free_normalizeNode _ _ (by decide) (by decide) s
          ((findTypeList_eq_nil_iff _ _).mp hbN s (hb1 s hs).1)
      have e3 : convertExportDefaultDeclarationToReturn
          (.Program ((body.filter (fun s => !(typeOf s == "ImportDeclaration"))).map
            (normalizeNode ((getDependencyPairs (.Program body)).filter truthyName)))) =
          .Program (((body.filter (fun s => !(typeOf s == "ImportDeclaration"))).map
            (normalizeNode ((getDependencyPairs (.Program body)).filter truthyName))).map
              exportDefaultToReturn) := by
        simp [convertExportDefaultDeclarationToReturn, exportDefaultToReturn,
          exportDefaultToReturnList_eq_map]
      rw [e3]
      refine ⟨?_, ?_, ?_⟩
      · refine twoArgDefine_output_free _ _ _ (Or.inl rfl) ?_
        rw [← exportDefaultToReturnList_eq_map]
        have hlen := length_find_eDTRList "ImportDeclaration" (by decide) (by decide)
          ((body.filter (fun s => !(typeOf s == "ImportDeclaration"))).map
            (normalizeNode ((getDependencyPairs (.Program body)).filter truthyName)))
        rw [hb2I] at hlen
        exact List.eq_nil_of_length_eq_zero hlen
      · exact twoArgDefine_output_free _ _ _ (Or.inr (Or.inl rfl)) (by
          rw [← exportDefaultToReturnList_eq_map]
          exact findDefault_eDTRList _)
      · refine twoArgDefine_output_free _ _ _ (Or.inr (Or.inr rfl)) ?_
        rw [← exportDefaultToReturnList_eq_map]
        have hlen := length_find_eDTRList "ExportNamedDeclaration" (by decide) (by decide)
          ((body.filter (fun s => !(typeOf s == "ImportDeclaration"))).map
            (normalizeNode ((getDependencyPairs (.Program body)).filter truthyName)))
        rw [hb2N] at hlen
        exact List.eq_nil_of_length_eq_zero hlen
    | false =>
      simp only [hDt2, Bool.false_eq_true, if_false]
      have hb2D : findTypeList "ExportDefaultDeclaration"
          ((body.filter (fun s => !(typeOf s == "ImportDeclaration"))).map
            (normalizeNode ((getDependencyPairs (.Program body)).filter truthyName))) = [] :=
        (hasType_Program_false_iff _ (by decide) _).mp hDt2
      cases hNt2 : hasType "ExportNamedDeclaration"
          (.Program ((body.filter (fun s => !(typeOf s == "ImportDeclaration"))).map
            (normalizeNode ((getDependencyPairs (.Program body)).filter truthyName)))) with
      | false =>
        simp only [hNt2, Bool.false_eq_true, if_false]
        have hb2N : findTypeList "ExportNamedDeclaration"
            ((body.filter (fun s => !(typeOf s == "ImportDeclaration"))).map
              (normalizeNode ((getDependencyPairs (.Program body)).filter truthyName))) = [] :=
          (hasType_Program_false_iff _ (by decide) _).mp hNt2
        exact ⟨twoArgDefine_output_free _ _ _ (Or.inl rfl) hb2I,
          twoArgDefine_output_free _ _ _ (Or.inr (Or.inl rfl)) hb2D,
          twoArgDefine_output_free _ _ _ (Or.inr (Or.inr rfl)) hb2N⟩
      | true =>
        simp only [hNt2, if_true]
        rw [convertExportNamedDeclarations_shape _ hb2cleanN]
        have hNN := named_pieces_free_N _ hb2cleanN
        have hII := named_pieces_free_other "ImportDeclaration" (by decide) (by decide) _ hb2I
        have hDD := named_pieces_free_other "ExportDefaultDeclaration" (by decide) (by decide)
          _ hb2D
        refine ⟨?_, ?_, ?_⟩
        · refine twoArgDefine_output_free _ _ _ (Or.inl rfl) ?_
          rw [findTypeList_append, hII.1,
            findTypeList_return_object2 "ImportDeclaration" (by decide) (by decide) _ hII.2]
          rfl
        · refine twoArgDefine_output_free _ _ _ (Or.inr (Or.inl rfl)) ?_
          rw [findTypeList_append, hDD.1,
            findTypeList_return_object2 "ExportDefaultDeclaration" (by decide) (by decide) _ hDD.2]
          rfl
        · refine twoArgDefine_output_free _ _ _ (Or.inr (Or.inr rfl)) ?_
          rw [findTypeList_append, hNN.1,
            findTypeList_return_object2 "ExportNamedDeclaration" (by decide) (by decide) _ hNN.2]
          rfl

/-!
Claim theorems.
-/

/-- C1: the spec requires the fresh synthetic parameter to be allocated with
an exclusion set containing every identifier name appearing among the import
declarations, so that it never equals any local name. The code instead
collects the name field of the ImportDeclaration nodes themselves, which is
always undefined, so the allocator only ever sees undefined plus the
previously allocated synthetic names. On import a from m; import (b) from n
the allocator consequently returns the name a for the unrenamed named import
of b, even though a is the local name of the default import: the resolver
emits the pairs (m, param a) and (n, param a, name b), with the synthetic
parameter colliding with the local name a. -/
theorem claim_C1_allocator_sees_no_local_names :
    getDependencyPairs importCollisionTree =
      [{ element := "m", param := some "a" },
       { element := "n", param := some "a", name := some "b" }] ∧
    (getDependencyPairs importCollisionTree).map (fun p => p.param) =
      [some "a", some "a"] :=
  ⟨rfl, rfl⟩

/-- C7: the dispatcher tests ImportDeclaration, then
ExportDefaultDeclaration, then ExportNamedDeclaration, in that priority
order, and runs at most one transformation: whenever an import is present
the import-aware path runs regardless of which export forms are present;
with no import, the default-export path runs when a default export is
present; with neither, the named-export path runs when a named export is
present; otherwise the tree is left unchanged. -/
theorem claim_C7_dispatcher_priority (t : Node) :
    (hasType "ImportDeclaration" t = true →
      convert t = convertCodeWithImportDeclarations t) ∧
    (hasType "ImportDeclaration" t = false →
      hasType "ExportDefaultDeclaration" t = true →
      convert t = convertExportDefaultDeclarationToDefine t) ∧
    (hasType "ImportDeclaration" t = false →
      hasType "ExportDefaultDeclaration" t = false →
      hasType "ExportNamedDeclaration" t = true →
      convert t = convertExportNamedDeclarationToDefine t) ∧
    (hasType "ImportDeclaration" t = false →
      hasType "ExportDefaultDeclaration" t = false →
      hasType "ExportNamedDeclaration" t = false →
      convert t = t) := by
  refine ⟨?_, ?_, ?_, ?_⟩ <;> intros <;> simp [convert, *]

/-- Witness for C7 at a concrete tree containing an import and both export
forms: the import-aware path is selected. -/
theorem claim_C7_dispatcher_priority_witness :
    hasType "ImportDeclaration" importAndExportsTree = true ∧
    hasType "ExportDefaultDeclaration" importAndExportsTree = true ∧
    hasType "ExportNamedDeclaration" importAndExportsTree = true ∧
    convert importAndExportsTree = convertCodeWithImportDeclarations importAndExportsTree :=
  ⟨rfl, rfl, rfl, (claim_C7_dispatcher_priority importAndExportsTree).1 rfl⟩

/-- C9: a tree containing none of ImportDeclaration,
ExportDefaultDeclaration, ExportNamedDeclaration is left exactly unchanged
by conversion. -/
theorem claim_C9_noop_law (t : Node)
    (hI : hasType "ImportDeclaration" t = false)
    (hD : hasType "ExportDefaultDeclaration" t = false)
    (hN : hasType "ExportNamedDeclaration" t = false) :
    convert t = t :=
  convert_id_of_free t hI hD hN

/-- Witness for C9 at a concrete import-free and export-free tree. -/
theorem claim_C9_noop_law_witness :
    hasType "ImportDeclaration" plainTree = false ∧
    hasType "ExportDefaultDeclaration" plainTree = false ∧
    hasType "ExportNamedDeclaration" plainTree = false ∧
    convert plainTree = plainTree :=
  ⟨rfl, rfl, rfl, claim_C9_noop_law plainTree rfl rfl rfl⟩

/-- C3: the identifier-reference rewriter. An Identifier leaf whose name
matches the name of some grouped pair is replaced by the member expression
object Identifier(param), property Identifier(name) of the first matching
pair, and the name identifier inside the freshly created replacement is
returned as the literal Identifier(name): it is not fed through the rewrite
again, although its name still matches. A non-matching identifier is kept,
and every composite node is rebuilt from its recursively rewritten children
(children before parents), the parent node itself left untouched by the
visitor. -/
theorem claim_C3_identifier_rewriter (pairs : List DependencyPair) (nm : String)
    (pair : DependencyPair)
    (h : lookupPair (pairs.filter truthyName) nm = some pair) :
    pair.name = some nm ∧
    normalizePairs pairs (.Identifier nm) =
      .MemberExpression (.Identifier (pair.param.getD "undefined")) (.Identifier nm) ∧
    (∀ nm2, lookupPair (pairs.filter truthyName) nm2 = none →
      normalizePairs pairs (.Identifier nm2) = .Identifier nm2) ∧
    (∀ callee arguments, normalizePairs pairs (.CallExpression callee arguments) =
      .CallExpression (normalizePairs pairs callee) (arguments.map (normalizePairs pairs))) ∧
    (∀ o p, normalizePairs pairs (.MemberExpression o p) =
      .MemberExpression (normalizePairs pairs o) (normalizePairs pairs p)) ∧
    (∀ body, normalizePairs pairs (.Program body) = .Program (body.map (normalizePairs pairs))) := by
  have hname : pair.name = some nm := by
    have hb := List.find?_some h
    exact eq_of_beq hb
  refine ⟨hname, ?_, ?_, ?_, ?_, ?_⟩
  · simp [normalizePairs, normalizeNode, normalizeVisit, h,
      convertIdentifierToMemberExpression, hname]
  · intro nm2 h2
    simp [normalizePairs, normalizeNode, normalizeVisit, h2]
  · intro callee arguments
    simp [normalizePairs, normalizeNode, normalizeList_eq_map]
  · intro o p
    simp [normalizePairs, normalizeNode]
  · intro body
    simp [normalizePairs, normalizeNode, normalizeList_eq_map]

/-- Witness for C3 at a concrete pair list and identifier. -/
theorem claim_C3_identifier_rewriter_witness :
    lookupPair (([{ element := "a", param := some "t", name := some "x" }] :
        List DependencyPair).filter truthyName) "x" =
      some { element := "a", param := some "t", name := some "x" } ∧
    normalizePairs [{ element := "a", param := some "t", name := some "x" }]
        (.Identifier "x") =
      .MemberExpression (.Identifier "t") (.Identifier "x") :=
  ⟨rfl,
    (claim_C3_identifier_rewriter
      [{ element := "a", param := some "t", name := some "x" }] "x"
      { element := "a", param := some "t", name := some "x" } rfl).2.1⟩

/-- The last element of a nonempty list ending in an appended singleton. -/
theorem getLast?_cons_append_singleton (x : α) (l : List α) (r : α) :
    (x :: (l ++ [r])).getLast? = some r := by
  induction l generalizing x with
  | nil => rfl
  | cons y ys ih => simpa [List.getLast?_cons_cons] using ih y

/-- C5: the named-export conversion. A specifier-only export contributes one
shorthand property per specifier whose key and value are both the local name
(the export rename is not used), and leaves no statement; an export wrapping
a VariableDeclaration contributes one non-shorthand property per declarator
id while the VariableDeclaration stays as an ordinary statement; all
ExportNamedDeclaration wrappers are gone afterwards and exactly one return
statement is appended whose argument is the object of all collected
properties, in declaration order, specifier order within a declaration. -/
theorem claim_C5_named_export_conversion (body : List Node)
    (hwf : ∀ s ∈ body, stmtClean "ExportNamedDeclaration" s) :
    convertExportNamedDeclarations (.Program body) =
      .Program (body.filterMap unwrapExportNamed ++
        [.ReturnStatement (some (.ObjectExpression (mapDeclarationsToProperties
          (body.filter (fun s => typeOf s == "ExportNamedDeclaration")))))]) ∧
    (∀ ps : List (String × String),
      mapDeclarationToProperty (.ExportNamedDeclaration none
        (ps.map (fun p => .ExportSpecifier (.Identifier p.1) (.Identifier p.2)))) =
      ps.map (fun p => .Property (.Identifier p.1) (.Identifier p.1) true)) ∧
    (∀ (ds : List (String × Option Node)) (specs : List Node),
      mapDeclarationToProperty (.ExportNamedDeclaration
        (some (.VariableDeclaration
          (ds.map (fun d => .VariableDeclarator (.Identifier d.1) d.2)))) specs) =
      ds.map (fun d => .Property (.Identifier d.1) (.Identifier d.1) false)) ∧
    (∀ od specs, unwrapExportNamed (.ExportNamedDeclaration od specs) = od) := by
  refine ⟨?_, ?_, ?_, ?_⟩
  · exact convertExportNamedDeclarations_shape body hwf
  · intro ps
    simp [mapDeclarationToProperty, List.map_map, getProperty, localField, Function.comp_def]
  · intro ds specs
    simp [mapDeclarationToProperty, List.map_map, getProperty, idField, Function.comp_def]
  · intro od specs
    cases od <;> rfl

/-- Witness for C5 at a concrete body with an ordinary statement, a variable
export and a specifier-only renamed export. -/
theorem claim_C5_named_export_conversion_witness :
    (∀ s ∈ ([.ExpressionStatement (.Identifier "q"),
             .ExportNamedDeclaration
               (some (.VariableDeclaration
                 [.VariableDeclarator (.Identifier "a") (some (.Literal "1"))])) [],
             .ExportNamedDeclaration none
               [.ExportSpecifier (.Identifier "b") (.Identifier "c")]] : List Node),
      stmtClean "ExportNamedDeclaration" s) ∧
    convertExportNamedDeclarations (.Program
      [.ExpressionStatement (.Identifier "q"),
       .ExportNamedDeclaration
         (some (.VariableDeclaration
           [.VariableDeclarator (.Identifier "a") (some (.Literal "1"))])) [],
       .ExportNamedDeclaration none
         [.ExportSpecifier (.Identifier "b") (.Identifier "c")]]) =
      .Program
        [.ExpressionStatement (.Identifier "q"),
         .VariableDeclaration [.VariableDeclarator (.Identifier "a") (some (.Literal "1"))],
         .ReturnStatement (some (.ObjectExpression
           [.Property (.Identifier "a") (.Identifier "a") false,
            .Property (.Identifier "b") (.Identifier "b") true]))] := by
  have hwf : ∀ s ∈ ([.ExpressionStatement (.Identifier "q"),
      .ExportNamedDeclaration
        (some (.VariableDeclaration
          [.VariableDeclarator (.Identifier "a") (some (.Literal "1"))])) [],
      .ExportNamedDeclaration none
        [.ExportSpecifier (.Identifier "b") (.Identifier "c")]] : List Node),
      stmtClean "ExportNamedDeclaration" s := by
    intro s hs
    simp [List.mem_cons] at hs
    rcases hs with rfl | rfl | rfl <;> rfl
  exact ⟨hwf, (claim_C5_named_export_conversion _ hwf).1⟩

/-- C6 counterexample: on export default 42 followed by an ordinary
statement, with no imports, conversion produces the define factory whose
block is the use strict directive, the return of 42 converted in place, and
then the trailing ordinary statement: the block does not end with a return
statement, contradicting the claim as stated. -/
theorem claim_C6_counterexample :
    convert defaultNotLastTree =
      .Program [.ExpressionStatement (.CallExpression (.Identifier "define")
        [.FunctionExpression [] (.BlockStatement
          [.ExpressionStatement (.Literal "use strict"),
           .ReturnStatement (some (.Literal "42")),
           .ExpressionStatement (.Identifier "x")])])] ∧
    ([.ExpressionStatement (.Literal "use strict"),
      .ReturnStatement (some (.Literal "42")),
      .ExpressionStatement (.Identifier "x")] : List Node).getLast? =
      some (.ExpressionStatement (.Identifier "x")) ∧
    typeOf (.ExpressionStatement (.Identifier "x")) ≠ "ReturnStatement" :=
  ⟨rfl, rfl, by decide⟩

/-- C6 amended: for an import-free tree with an export, conversion produces
exactly one top-level expression statement calling define with one argument,
a zero-parameter function expression whose block starts with the use strict
directive followed by the transformed statements. In the named-export path
the block additionally ends with the return of the exports object; in the
default path each ExportDefaultDeclaration is rewritten in place into a
return statement, so the block ends with a return exactly when the default
export was the last statement. -/
theorem claim_C6_define_shape (body : List Node)
    (hI : hasType "ImportDeclaration" (.Program body) = false) :
    (hasType "ExportDefaultDeclaration" (.Program body) = true →
      convert (.Program body) =
        .Program [getDefine [getFunctionExpression []
          (useStrictStatement :: body.map exportDefaultToReturn)]] ∧
      (∀ pre d, body = pre ++ [.ExportDefaultDeclaration d] →
        (useStrictStatement :: body.map exportDefaultToReturn).getLast? =
          some (.ReturnStatement (some (exportDefaultToReturn d))))) ∧
    (hasType "ExportDefaultDeclaration" (.Program body) = false →
      hasType "ExportNamedDeclaration" (.Program body) = true →
      convert (.Program body) =
        .Program [getDefine [getFunctionExpression []
          (useStrictStatement ::
            (removeTypeList "ExportNamedDeclaration" (body.map exportNamedToDeclaration) ++
              [.ReturnStatement (some (getObjectExpression
                (findTypeList "ExportNamedDeclaration" body)))]))]] ∧
      (useStrictStatement ::
        (removeTypeList "ExportNamedDeclaration" (body.map exportNamedToDeclaration) ++
          [.ReturnStatement (some (getObjectExpression
            (findTypeList "ExportNamedDeclaration" body)))])).getLast? =
        some (.ReturnStatement (some (getObjectExpression
          (findTypeList "ExportNamedDeclaration" body))))) := by
  constructor
  · intro hD
    refine ⟨convert_default_path body hI hD, ?_⟩
    intro pre d hbd
    subst hbd
    rw [List.map_append]
    simpa [exportDefaultToReturn] using
      getLast?_cons_append_singleton useStrictStatement
        (pre.map exportDefaultToReturn)
        (exportDefaultToReturn (.ExportDefaultDeclaration d))
  · intro hD hN
    exact ⟨convert_named_path body hI hD hN, getLast?_cons_append_singleton _ _ _⟩

/-- Witness for C6 at the concrete tree export default 42. -/
theorem claim_C6_define_shape_witness :
    hasType "ImportDeclaration" (.Program [.ExportDefaultDeclaration (.Literal "42")]) = false ∧
    hasType "ExportDefaultDeclaration"
      (.Program [.ExportDefaultDeclaration (.Literal "42")]) = true ∧
    convert (.Program [.ExportDefaultDeclaration (.Literal "42")]) =
      .Program [.ExpressionStatement (.CallExpression (.Identifier "define")
        [.FunctionExpression [] (.BlockStatement
          [.ExpressionStatement (.Literal "use strict"),
           .ReturnStatement (some (.Literal "42"))])])] ∧
    ([.ExpressionStatement (.Literal "use strict"),
      .ReturnStatement (some (.Literal "42"))] : List Node).getLast? =
      some (.ReturnStatement (some (.Literal "42"))) :=
  ⟨rfl, rfl,
    ((claim_C6_define_shape [.ExportDefaultDeclaration (.Literal "42")] rfl).1 rfl).1,
    ((claim_C6_define_shape [.ExportDefaultDeclaration (.Literal "42")] rfl).1 rfl).2
      [] (.Literal "42") rfl⟩

/-- C10: with no import present but a default export present, only the
default-export conversion runs, and when a named export is also present the
produced output still contains ExportNamedDeclaration nodes, carried over
unconverted inside the emitted define factory body. -/
theorem claim_C10_named_carried_over (body : List Node)
    (hI : hasType "ImportDeclaration" (.Program body) = false)
    (hD : hasType "ExportDefaultDeclaration" (.Program body) = true) :
    convert (.Program body) = convertExportDefaultDeclarationToDefine (.Program body) ∧
    (hasType "ExportNamedDeclaration" (.Program body) = true →
      hasType "ExportNamedDeclaration" (convert (.Program body)) = true) := by
  constructor
  · simp [convert, hI, hD]
  · intro hN
    rw [convert_default_path body hI hD, hasType_true_iff]
    have hcomp : findType "ExportNamedDeclaration"
        (Node.Program [getDefine [getFunctionExpression []
          (useStrictStatement :: body.map exportDefaultToReturn)]]) =
        findTypeList "ExportNamedDeclaration" (body.map exportDefaultToReturn) := by
      simp [findType, findTypeList, typeOf, getDefine, getFunctionExpression, useStrictStatement]
    rw [hcomp, ← exportDefaultToReturnList_eq_map]
    have hlen := length_find_eDTRList "ExportNamedDeclaration" (by decide) (by decide) body
    have hsrc : findTypeList "ExportNamedDeclaration" body ≠ [] := by
      rw [hasType_true_iff] at hN
      intro hnil
      apply hN
      simp [findType, typeOf, hnil]
    intro hnil
    rw [hnil] at hlen
    exact hsrc (List.eq_nil_of_length_eq_zero hlen.symm)

/-- A lookup hit in an association list survives appending further entries. -/
theorem assocLookup_append_of_some (m l : List (String × String)) (key v : String)
    (h : assocLookup m key = some v) : assocLookup (m ++ l) key = some v := by
  induction m with
  | nil => simp [assocLookup] at h
  | cons kv rest ih =>
    cases kv with
    | mk k0 v0 =>
      by_cases hk : (k0 == key) = true
      · simp [assocLookup, hk] at h ⊢
        exact h
      · simp [assocLookup, hk] at h ⊢
        exact ih h

/-- Appending an entry for an absent key makes it found. -/
theorem assocLookup_append_self (m : List (String × String)) (key p : String)
    (h : assocLookup m key = none) : assocLookup (m ++ [(key, p)]) key = some p := by
  induction m with
  | nil => simp [assocLookup]
  | cons kv rest ih =>
    cases kv with
    | mk k0 v0 =>
      by_cases hk : (k0 == key) = true
      · simp [assocLookup, hk] at h
      · simp [assocLookup, hk] at h ⊢
        exact ih h

/-- Resolving one specifier only ever appends to the memo: earlier lookup
hits are preserved. -/
theorem resolveSpecifier_memo_extends (ids : List (Option String)) (src : String)
    (m : List (String × String)) (s : Node) (k v : String)
    (h : assocLookup m k = some v) :
    assocLookup (resolveSpecifier ids src m s).2 k = some v := by
  cases s
  case ImportSpecifier imported l =>
    by_cases hr : (nameField imported != nameField l) = true
    · simpa [resolveSpecifier, hr] using h
    · cases hl : assocLookup m src with
      | some p => simpa [resolveSpecifier, hr, hl] using h
      | none =>
        simp only [resolveSpecifier, hr, if_false, hl, Bool.false_eq_true]
        exact assocLookup_append_of_some m _ k v h
  all_goals simpa [resolveSpecifier] using h

/-- Every pair emitted for one specifier that carries a name also carries a
parameter recorded in the updated memo under the pair's element. -/
theorem resolveSpecifier_new_pairs (ids : List (Option String)) (src : String)
    (m : List (String × String)) (s : Node) :
    ∀ pr ∈ (resolveSpecifier ids src m s).1, pr.name.isSome = true →
      ∃ v, pr.param = some v ∧
        assocLookup (resolveSpecifier ids src m s).2 pr.element = some v := by
  cases s
  case ImportSpecifier imported l =>
    by_cases hr : (nameField imported != nameField l) = true
    · intro pr hpr hn
      simp [resolveSpecifier, hr, getLocalSpecifier] at hpr
      rw [hpr] at hn
      simp at hn
    · cases hl : assocLookup m src with
      | some p =>
        intro pr hpr hn
        simp [resolveSpecifier, hr, hl] at hpr
        refine ⟨p, ?_, ?_⟩
        · rw [hpr]
        · rw [hpr]
          simp [resolveSpecifier, hr, hl]
      | none =>
        intro pr hpr hn
        have hmemo : (resolveSpecifier ids src m (.ImportSpecifier imported l)) =
            ([{ element := src,
                param := some (identifier (uniq ids ++ (m.map Prod.snd).map some)),
                name := nameField l }],
             m ++ [(src, identifier (uniq ids ++ (m.map Prod.snd).map some))]) := by
          simp [resolveSpecifier, hr, hl]
        rw [hmemo] at hpr ⊢
        have hpr2 := List.mem_singleton.mp hpr
        subst hpr2
        exact ⟨_, rfl, assocLookup_append_self m src _ hl⟩
  all_goals intro pr hpr hn
  all_goals simp [resolveSpecifier, getLocalSpecifier] at hpr
  all_goals first
    | exact absurd hpr (by simp)
    | (rw [hpr] at hn; simp at hn)

/-- A fold preserves an invariant preserved by each step. -/
theorem foldl_invariant {σ : Type u} {α : Type v} (P : σ → Prop) (f : σ → α → σ)
    (l : List α) (s : σ) (hstep : ∀ s x, P s → P (f s x)) (h0 : P s) :
    P (l.foldl f s) := by
  induction l generalizing s with
  | nil => simpa using h0
  | cons x xs ih => exact ih (f s x) (hstep s x h0)

/-- One specifier step of the resolver preserves the invariant. -/
theorem resolveSpecifier_step_inv (ids : List (Option String)) (src : String)
    (a : List DependencyPair × List (String × String)) (s : Node)
    (ha : ResolveInv a) :
    ResolveInv (a.1 ++ (resolveSpecifier ids src a.2 s).1,
      (resolveSpecifier ids src a.2 s).2) := by
  intro pr hpr hn
  rcases List.mem_append.mp hpr with hold | hnew
  · rcases ha pr hold hn with ⟨v, hpv, hlook⟩
    exact ⟨v, hpv, resolveSpecifier_memo_extends ids src a.2 s pr.element v hlook⟩
  · exact resolveSpecifier_new_pairs ids src a.2 s pr hnew hn

/-- One declaration step of the resolver preserves the invariant. -/
theorem resolveImport_inv (ids : List (Option String))
    (a : List DependencyPair × List (String × String)) (node : Node)
    (ha : ResolveInv a) : ResolveInv (resolveImport ids a node) := by
  cases node
  case ImportDeclaration specifiers src =>
    by_cases hse : isSideEffectImportDeclaration (.ImportDeclaration specifiers src) = true
    · simp only [resolveImport, hse, if_true]
      intro pr hpr hn
      rcases List.mem_append.mp hpr with hold | hnew
      · rcases ha pr hold hn with ⟨v, hpv, hlook⟩
        exact ⟨v, hpv, hlook⟩
      · simp at hnew
        rw [hnew] at hn
        simp at hn
    · simp only [resolveImport, hse, if_false, Bool.false_eq_true]
      exact foldl_invariant ResolveInv _ specifiers a
        (fun st x hst => resolveSpecifier_step_inv ids src st x hst) ha
  all_goals simpa [resolveImport] using ha

/-- C4: within one conversion run, any two dependency pairs produced from
unrenamed named import specifiers (exactly the pairs carrying a name field)
whose declarations name the same module specifier carry the same synthetic
parameter: all unrenamed named imports of one module share exactly one
factory parameter. -/
theorem claim_C4_one_param_per_module (t : Node) (p q : DependencyPair)
    (hp : p ∈ getDependencyPairs t) (hq : q ∈ getDependencyPairs t)
    (hpn : p.name.isSome = true) (hqn : q.name.isSome = true)
    (he : p.element = q.element) : p.param = q.param := by
  have hinv : ResolveInv ((findType "ImportDeclaration" t).foldl
      (resolveImport (uniq ((findType "ImportDeclaration" t).map nameField))) ([], [])) :=
    foldl_invariant ResolveInv _ _ _
      (fun st x hst => resolveImport_inv _ st x hst)
      (by intro pr hpr hn; simp at hpr)
  simp only [getDependencyPairs] at hp hq
  rcases hinv p hp hpn with ⟨v, hpv, hpl⟩
  rcases hinv q hq hqn with ⟨w, hqw, hql⟩
  rw [he] at hpl
  rw [hpl] at hql
  rw [hpv, hqw]
  exact congrArg some (Option.some.inj hql)

/-- Witness for C4 at a concrete tree with two separate unrenamed named
imports of the same module. -/
theorem claim_C4_one_param_per_module_witness :
    getDependencyPairs sharedModuleTree =
      [{ element := "a", param := some "a", name := some "x" },
       { element := "a", param := some "a", name := some "y" }] ∧
    ({ element := "a", param := some "a", name := some "x" } : DependencyPair).param =
      ({ element := "a", param := some "a", name := some "y" } : DependencyPair).param :=
  ⟨rfl,
    claim_C4_one_param_per_module sharedModuleTree
      { element := "a", param := some "a", name := some "x" }
      { element := "a", param := some "a", name := some "y" }
      (by decide) (by decide) (by decide) (by decide) rfl⟩

/-- The deduplicated list is a sublist of the input, hence in source order. -/
theorem uniqByAux_sublist [DecidableEq β] (key : α → β) :
    ∀ (l : List α) (seen : List β), List.Sublist (uniqByAux key seen l) l := by
  intro l
  induction l with
  | nil => intro seen; simp [uniqByAux]
  | cons x xs ih =>
    intro seen
    by_cases hx : key x ∈ seen
    · simpa [uniqByAux, hx] using (ih seen).cons x
    · simpa [uniqByAux, hx] using (ih (key x :: seen)).cons₂ x

/-- Every key of the input either was already seen or is represented in the
deduplicated list. -/
theorem uniqByAux_complete [DecidableEq β] (key : α → β) :
    ∀ (l : List α) (seen : List β) (x : α), x ∈ l →
      key x ∈ seen ∨ ∃ y ∈ uniqByAux key seen l, key y = key x := by
  intro l
  induction l with
  | nil => intro seen x hx; simp at hx
  | cons a as ih =>
    intro seen x hx
    by_cases ha : key a ∈ seen
    · rcases List.mem_cons.mp hx with heq | hx2
      · exact Or.inl (heq ▸ ha)
      · simpa [uniqByAux, ha] using ih seen x hx2
    · rcases List.mem_cons.mp hx with heq | hx2
      · refine Or.inr ⟨a, ?_, ?_⟩
        · simp [uniqByAux, ha]
        · rw [heq]
      · rcases ih (key a :: seen) x hx2 with hseen | ⟨y, hy, hky⟩
        · rcases List.mem_cons.mp hseen with heq2 | hseen2
          · refine Or.inr ⟨a, ?_, heq2.symm⟩
            simp [uniqByAux, ha]
          · exact Or.inl hseen2
        · refine Or.inr ⟨y, ?_, hky⟩
          simp [uniqByAux, ha, hy]

/-- The deduplicated list has pairwise distinct keys, none of them among the
already seen keys. -/
theorem uniqByAux_nodup_keys [DecidableEq β] (key : α → β) :
    ∀ (l : List α) (seen : List β),
      ((uniqByAux key seen l).map key).Nodup ∧
        ∀ y ∈ uniqByAux key seen l, key y ∉ seen := by
  intro l
  induction l with
  | nil => intro seen; simp [uniqByAux]
  | cons a as ih =>
    intro seen
    by_cases ha : key a ∈ seen
    · simpa [uniqByAux, ha] using ih seen
    · have ih2 := ih (key a :: seen)
      constructor
      · simp only [uniqByAux, ha, if_false, List.map_cons, List.nodup_cons]
        constructor
        · intro hmem
          rcases List.mem_map.mp hmem with ⟨y, hy, hky⟩
          exact (ih2.2 y hy) (by simp [hky])
        · exact ih2.1
      · intro y hy
        rcases List.mem_cons.mp (by simpa [uniqByAux, ha] using hy) with rfl | hy2
        · exact ha
        · intro hseen
          exact (ih2.2 y hy2) (by simp [hseen])

/-- Left cancellation of string concatenation. -/
theorem string_append_left_cancel (a b c : String) (h : a ++ b = a ++ c) : b = c := by
  have hd := congrArg String.data h
  simp [String.data_append] at hd
  exact String.ext hd

/-- The JS truthiness filter on params agrees with presence of a param as
long as no param is the empty string. -/
theorem truthyParam_eq_isSome (p : DependencyPair) (h : p.param ≠ some "") :
    truthyParam p = p.param.isSome := by
  unfold truthyParam
  cases hp : p.param with
  | none => simp
  | some s =>
    have : s ≠ "" := fun he => h (by simp [hp, he])
    simp [this]

/-- C2: the import-path assembler deduplicates the resolver pair list by the
combined (element, param) key: pairs with equal element and equal param
collapse into one occurrence, while two pairs with the same element but
distinct present params both stay represented. The emitted dependency array
lists the element literals in the first-occurrence order of the deduplicated
list (a sublist of the pair list in source order with pairwise distinct
keys, covering every input key), and the factory parameter list is drawn
from the same deduplicated list, in the same order, restricted to the pairs
that have a param. -/
theorem claim_C2_assembler_dedup (pairs : List DependencyPair) (body : List Node)
    (hne : ∀ p ∈ pairs, p.param ≠ some "") :
    wrapWithDefineWithArrayExpression pairs (.Program body) =
      .Program [getDefine
        [getArrayExpression ((uniqBy pairKey pairs).map (fun p => Node.Literal p.element)),
         getFunctionExpression
           (((uniqBy pairKey pairs).filter (fun p => p.param.isSome)).map
             (fun p => Node.Identifier (p.param.getD "undefined")))
           body]] ∧
    List.Sublist (uniqBy pairKey pairs) pairs ∧
    ((uniqBy pairKey pairs).map pairKey).Nodup ∧
    (∀ p ∈ pairs, ∃ q ∈ uniqBy pairKey pairs, pairKey q = pairKey p) ∧
    (∀ p q, p ∈ uniqBy pairKey pairs → q ∈ uniqBy pairKey pairs →
      p.element = q.element → p.param = q.param → p = q) ∧
    (∀ p q, p ∈ pairs → q ∈ pairs → p.element = q.element →
      ∀ a b, p.param = some a → q.param = some b → a ≠ b →
        ∃ p2 ∈ uniqBy pairKey pairs, ∃ q2 ∈ uniqBy pairKey pairs,
          pairKey p2 = pairKey p ∧ pairKey q2 = pairKey q ∧ p2 ≠ q2) := by
  have hsub : List.Sublist (uniqBy pairKey pairs) pairs := uniqByAux_sublist pairKey pairs []
  have hnodup : ((uniqBy pairKey pairs).map pairKey).Nodup :=
    (uniqByAux_nodup_keys pairKey pairs []).1
  have hcomplete : ∀ p ∈ pairs, ∃ q ∈ uniqBy pairKey pairs, pairKey q = pairKey p := by
    intro p hp
    rcases uniqByAux_complete pairKey pairs [] p hp with hseen | hrep
    · simp at hseen
    · exact hrep
  refine ⟨?_, hsub, hnodup, hcomplete, ?_, ?_⟩
  · have hfilter : (uniqBy pairKey pairs).filter truthyParam =
        (uniqBy pairKey pairs).filter (fun p => p.param.isSome) := by
      refine List.filter_congr ?_
      intro x hx
      exact truthyParam_eq_isSome x (hne x (hsub.subset hx))
    simp [wrapWithDefineWithArrayExpression, wrapBody, hfilter, List.map_map,
      Function.comp_def]
  · intro p q hp hq he hpar
    exact List.inj_on_of_nodup_map hnodup hp hq (by simp [pairKey, he, hpar])
  · intro p q hp hq he a b hpa hqb hab
    rcases hcomplete p hp with ⟨p2, hp2, hkp2⟩
    rcases hcomplete q hq with ⟨q2, hq2, hkq2⟩
    refine ⟨p2, hp2, q2, hq2, hkp2, hkq2, ?_⟩
    intro heq
    apply hab
    have hk : pairKey p = pairKey q := by rw [← hkp2, heq, hkq2]
    have : p.element ++ a = q.element ++ b := by
      simpa [pairKey, hpa, hqb] using hk
    rw [← he] at this
    exact string_append_left_cancel p.element a b this

/-- Witness for C2 at a concrete pair list: an exact duplicate (same
element, same param) collapses, while a second pair on the same element with
a different param survives, putting the element literal twice into the
dependency array. -/
theorem claim_C2_assembler_dedup_witness :
    (∀ p ∈ ([{ element := "a", param := some "x", name := some "x" },
             { element := "a", param := some "x" },
             { element := "a", param := some "y" }] : List DependencyPair),
      p.param ≠ some "") ∧
    wrapWithDefineWithArrayExpression
      [{ element := "a", param := some "x", name := some "x" },
       { element := "a", param := some "x" },
       { element := "a", param := some "y" }] (.Program []) =
      .Program [.ExpressionStatement (.CallExpression (.Identifier "define")
        [.ArrayExpression [.Literal "a", .Literal "a"],
         .FunctionExpression [.Identifier "x", .Identifier "y"] (.BlockStatement [])])] :=
  ⟨by decide,
    (claim_C2_assembler_dedup
      [{ element := "a", param := some "x", name := some "x" },
       { element := "a", param := some "x" },
       { element := "a", param := some "y" }] [] (by decide)).1⟩

/-- C8 counterexample: on a tree declaring both a default and a named
export, the first conversion leaves the ExportNamedDeclaration inside the
emitted factory, so the second conversion wraps the output again: conversion
is not idempotent there, contradicting the claim as stated for every input
tree. -/
theorem claim_C8_counterexample :
    hasType "ExportNamedDeclaration" (convert bothExportsTree) = true ∧
    convert (convert bothExportsTree) ≠ convert bothExportsTree := by
  refine ⟨rfl, fun h => ?_⟩
  exact absurd (congrArg (hasType "ExportNamedDeclaration") h) (by decide)

/-- C8 amended: for every input tree in the spec input format (import and
export declarations only as top-level statements of the program, clean below
the top) that does not declare both a default and a named export, the first
conversion output contains no ImportDeclaration, ExportDefaultDeclaration or
ExportNamedDeclaration node, and a second conversion leaves the tree
unchanged. -/
theorem claim_C8_reconversion_noop (body : List Node)
    (hwf : ∀ s ∈ body, stmtClean3 s)
    (hnot : ¬(hasType "ExportDefaultDeclaration" (.Program body) = true ∧
              hasType "ExportNamedDeclaration" (.Program body) = true)) :
    hasType "ImportDeclaration" (convert (.Program body)) = false ∧
    hasType "ExportDefaultDeclaration" (convert (.Program body)) = false ∧
    hasType "ExportNamedDeclaration" (convert (.Program body)) = false ∧
    convert (convert (.Program body)) = convert (.Program body) := by
  obtain ⟨h1, h2, h3⟩ := convert_free3 body hwf hnot
  exact ⟨h1, h2, h3, convert_id_of_free _ h1 h2 h3⟩

/-- Witness for C8 at a concrete tree with an import, a default export and a
trailing statement. -/
theorem claim_C8_reconversion_noop_witness :
    (∀ s ∈ ([.ImportDeclaration [.ImportDefaultSpecifier (.Identifier "d")] "m",
             .ExportDefaultDeclaration (.Identifier "d")] : List Node), stmtClean3 s) ∧
    ¬(hasType "ExportDefaultDeclaration"
        (.Program [.ImportDeclaration [.ImportDefaultSpecifier (.Identifier "d")] "m",
                   .ExportDefaultDeclaration (.Identifier "d")]) = true ∧
      hasType "ExportNamedDeclaration"
        (.Program [.ImportDeclaration [.ImportDefaultSpecifier (.Identifier "d")] "m",
                   .ExportDefaultDeclaration (.Identifier "d")]) = true) ∧
    convert (convert (.Program
      [.ImportDeclaration [.ImportDefaultSpecifier (.Identifier "d")] "m",
       .ExportDefaultDeclaration (.Identifier "d")])) =
      convert (.Program
        [.ImportDeclaration [.ImportDefaultSpecifier (.Identifier "d")] "m",
         .ExportDefaultDeclaration (.Identifier "d")]) := by
  have hwf : ∀ s ∈ ([.ImportDeclaration [.ImportDefaultSpecifier (.Identifier "d")] "m",
      .ExportDefaultDeclaration (.Identifier "d")] : List Node), stmtClean3 s := by
    intro s hs
    simp [List.mem_cons] at hs
    rcases hs with rfl | rfl <;> exact ⟨rfl, rfl, rfl⟩
  refine ⟨hwf, by decide, ?_⟩
  exact (claim_C8_reconversion_noop _ hwf (by decide)).2.2.2

/-- Witness for C10 at the concrete tree with both export forms. -/
theorem claim_C10_named_carried_over_witness :
    hasType "ImportDeclaration" bothExportsTree = false ∧
    hasType "ExportDefaultDeclaration" bothExportsTree = true ∧
    hasType "ExportNamedDeclaration" bothExportsTree = true ∧
    convert bothExportsTree = convertExportDefaultDeclarationToDefine bothExportsTree ∧
    hasType "ExportNamedDeclaration" (convert bothExportsTree) = true :=
  ⟨rfl, rfl, rfl,
    (claim_C10_named_carried_over
      [.ExportDefaultDeclaration (.Literal "1"),
       .ExportNamedDeclaration none [.ExportSpecifier (.Identifier "a") (.Identifier "a")]]
      rfl rfl).1,
    (claim_C10_named_carried_over
      [.ExportDefaultDeclaration (.Literal "1"),
       .ExportNamedDeclaration none [.ExportSpecifier (.Identifier "a") (.Identifier "a")]]
      rfl rfl).2 rfl⟩

end EsToAmd
